import Mathlib

/-!
Proof-of-work retargeting of UFO (`src/pow.cpp`).

A shallow embedding of the four functions of `src/pow.cpp`
(`GetNextWorkRequired`, `GetNextWorkRequired_V1`, `GetNextWorkRequired_V2`,
`CheckProofOfWork`) and theorems about them.

Conventions of the embedding.

* A `const CBlockIndex*` is a `List CBlockIndex`: `[]` is the null pointer and
  `e :: rest` is the entry `e` whose `pprev` is `rest`.
* `int` and `int64_t` values are unbounded integers (signed overflow is
  undefined in C++); `/` and `%` on them are `Int.tdiv` and `Int.tmod`.
  Block heights and the two durations of the configuration are natural
  numbers; fork heights are integers.
* The types and helpers that `src/pow.cpp` takes from other files
  (`CBlockIndex`, `Consensus::Params`, `arith_uint256`, `CBigNum`) are
  modelled; each such definition says so.
* A call either returns a value or stops with a `Fault`: a null pointer that is
  dereferenced, a division by zero, or a failed `assert`.
* The `double` arithmetic of `GetNextWorkRequired_V2` (lines 171-183) is not
  embedded: the outcome of its test is the parameter `horizon`.
-/

namespace UFO

/-! ## Data model -/

/-- Ways in which a call stops without a value. -/
inductive Fault where
  | nullDeref
  | divByZero
  | assertFailed
  deriving DecidableEq, Repr

deriving instance DecidableEq for Except

/-- Modelled from the spec: `CBlockIndex` (chain.h is not under src/), the
fields this file reads. `nHeight` is a non-negative integer, `nTime` is what
`GetBlockTime()` returns, `nBits` the compact target; the ancestor link is the
tail of the list the entry heads. -/
structure CBlockIndex where
  nHeight : Nat
  nTime : Int
  nBits : Nat
  deriving DecidableEq, Repr

/-- Modelled from the spec: `CBlockHeader` (primitives/block.h is not under
src/); only `GetBlockTime()` is read. -/
structure CBlockHeader where
  nTime : Int
  deriving DecidableEq, Repr

/-- Modelled from the spec: `Consensus::Params` (consensus/params.h is not
under src/). `powLimit` is a 256-bit value, the two durations are counts of
seconds, the fork heights are `int`. -/
structure Params where
  powLimit : Nat
  nPowTargetSpacing : Nat
  nPowTargetTimespan : Nat
  fPowAllowMinDifficultyBlocks : Bool
  fPowNoRetargeting : Bool
  nHardForkOne : Int
  nHardForkTwo : Int
  nHardForkTwoA : Int
  nHardForkThree : Int
  nCoinFix : Int
  deriving DecidableEq, Repr

/-! ## The compact codec and 256-bit arithmetic -/

/-- Number of base-256 digits of `x`, by at most `fuel` divisions. -/
def bytesAux : Nat → Nat → Nat
  | 0, _ => 0
  | fuel + 1, x => if x = 0 then 0 else bytesAux fuel (x / 256) + 1

/-- Modelled from the spec: `(bits() + 7) / 8`, the number of bytes of `x`. -/
def byteLen (x : Nat) : Nat := bytesAux x x

/-- Modelled from the spec: `UintToArith256` (arith_uint256.h is not under
src/), the 256-bit unsigned value of a `uint256`. -/
def UintToArith256 (x : Nat) : Nat := x % 2 ^ 256

/-- What `arith_uint256::SetCompact` hands back: the value and its two flags. -/
structure Decoded where
  value : Nat
  fNegative : Bool
  fOverflow : Bool
  deriving DecidableEq, Repr

/-- The 23-bit mantissa of a compact number moved to its place: shifted right
for an exponent of at most 3 bytes (first component, the word after the shift)
and left otherwise (second component, the unbounded magnitude). -/
def compactWord (nCompact : Nat) : Nat × Nat :=
  let nSize := nCompact / 2 ^ 24
  let nWord := nCompact % 2 ^ 23
  if nSize ≤ 3 then
    (nWord / 2 ^ (8 * (3 - nSize)), nWord / 2 ^ (8 * (3 - nSize)))
  else
    (nWord, nWord * 2 ^ (8 * (nSize - 3)))

/-- Modelled from the spec: `arith_uint256::SetCompact` (arith_uint256.cpp is
not under src/): the (sign, exponent, mantissa) decoding. The exponent is the
top byte, the sign is bit 23, the mantissa the low 23 bits; the value is kept
to 256 bits; `fNegative` is the sign bit of a non-zero mantissa and
`fOverflow` says that the mantissa does not fit under the exponent. -/
def arith_uint256.SetCompact (nCompact : Nat) : Decoded :=
  let nSize := nCompact / 2 ^ 24
  let nWord := (compactWord nCompact).1
  { value := (compactWord nCompact).2 % 2 ^ 256
    fNegative := decide (nWord ≠ 0) && decide ((nCompact / 2 ^ 23) % 2 = 1)
    fOverflow := decide (nWord ≠ 0) &&
      (decide (nSize > 34) || (decide (nWord > 0xff) && decide (nSize > 33)) ||
        (decide (nWord > 0xffff) && decide (nSize > 32))) }

/-- The mantissa and exponent of a magnitude: its three leading bytes, moved
down one byte when bit 23 (the sign position) would be set. -/
def compactOfMagnitude (x : Nat) : Nat :=
  let nSize := byteLen x
  let nCompact := if nSize ≤ 3 then x * 2 ^ (8 * (3 - nSize)) else x / 2 ^ (8 * (nSize - 3))
  if (nCompact / 2 ^ 23) % 2 = 1 then
    nCompact / 2 ^ 8 + (nSize + 1) * 2 ^ 24
  else
    nCompact + nSize * 2 ^ 24

/-- Modelled from the spec: `arith_uint256::GetCompact` (arith_uint256.cpp is
not under src/), the encoding of a 256-bit value as an `unsigned int`. -/
def arith_uint256.GetCompact (x : Nat) : Nat := compactOfMagnitude x % 2 ^ 32

/-- Modelled from the spec: `CBigNum::SetCompact` (bignum.h is not under
src/): the same decoding into a signed number of unbounded size. -/
def CBigNum.SetCompact (nCompact : Nat) : Int :=
  if (nCompact / 2 ^ 23) % 2 = 1 then -((compactWord nCompact).2 : Int)
  else ((compactWord nCompact).2 : Int)

/-- Modelled from the spec: `CBigNum::GetCompact` (bignum.h is not under
src/): the encoding of the magnitude, with bit 23 set for a negative number. -/
def CBigNum.GetCompact (x : Int) : Nat :=
  (compactOfMagnitude x.natAbs + (if x < 0 then 2 ^ 23 else 0)) % 2 ^ 32

/-- Modelled from the spec: `arith_uint256::operator*=` with an `int64_t`
operand, the product kept to 256 bits. The operand is never negative where
this file multiplies (it is at least a quarter of a duration). -/
def arith_uint256.mul (a : Nat) (k : Int) : Nat := (a * k.toNat) % 2 ^ 256

/-! ## `GetNextWorkRequired_V1` (lines 38-117) -/

/-- Modelled from the spec: `Consensus::Params::DifficultyAdjustmentInterval`
(consensus/params.h is not under src/), the timespan over the spacing. -/
def Params.DifficultyAdjustmentInterval (params : Params) : Int :=
  Int.tdiv params.nPowTargetTimespan params.nPowTargetSpacing

/-- Lines 41-43 and 50-54: `nTargetTimespan`, `nInterval` and
`nReTargetHistoryFact` for the block at `nHeight`. -/
def retargetSettings (params : Params) (nHeight : Int) : Int × Int × Int :=
  if nHeight ≥ params.nHardForkOne then
    (60 * 60, Int.tdiv (60 * 60) params.nPowTargetSpacing, 2)
  else
    (params.nPowTargetTimespan, params.DifficultyAdjustmentInterval, 4)

/-- Lines 69-72: from `pindex` back to the last entry that has no predecessor,
or is at a multiple of the interval, or does not carry the limit bits. -/
def minDifficultyWalk (nInterval : Int) (nProofOfWorkLimit : Nat) :
    CBlockIndex → List CBlockIndex → CBlockIndex
  | pindex, [] => pindex
  | pindex, p :: rest =>
    if Int.tmod pindex.nHeight nInterval ≠ 0 ∧ pindex.nBits = nProofOfWorkLimit then
      minDifficultyWalk nInterval nProofOfWorkLimit p rest
    else pindex

/-- Lines 80-84: the number of ancestor steps of the lookback, for a tip at
height `lastHeight`. -/
def blocksToGoBack (params : Params) (lastHeight : Nat) (nInterval nReTargetHistoryFact : Int) :
    Int :=
  let blockstogoback := nInterval - 1
  let blockstogoback := if (lastHeight : Int) + 1 ≠ nInterval then nInterval else blockstogoback
  if (lastHeight : Int) > params.nCoinFix then nReTargetHistoryFact * nInterval
  else blockstogoback

/-- Lines 86-88: `n` steps along `pprev`, stopping at a null pointer. -/
def walkBack : Nat → List CBlockIndex → List CBlockIndex
  | 0, pindexFirst => pindexFirst
  | _ + 1, [] => []
  | n + 1, _ :: pprev => walkBack n pprev

/-- Lines 95-104: the measured timespan, scaled and clamped. -/
def actualTimespan (params : Params) (last first : CBlockIndex)
    (nTargetTimespan nReTargetHistoryFact : Int) : Int :=
  let nActualTimespan : Int :=
    if (last.nHeight : Int) > params.nCoinFix then
      Int.tdiv (last.nTime - first.nTime) nReTargetHistoryFact
    else last.nTime - first.nTime
  let nActualTimespan :=
    if nActualTimespan < Int.tdiv nTargetTimespan 4 then Int.tdiv nTargetTimespan 4
    else nActualTimespan
  if nActualTimespan > nTargetTimespan * 4 then nTargetTimespan * 4 else nActualTimespan

/-- Lines 107-114: `bnNew` as it stands before it is encoded, for a non-zero
`nTargetTimespan`. -/
def retargetValue (params : Params) (last : CBlockIndex) (nActualTimespan nTargetTimespan : Int) :
    Nat :=
  let bnPowLimit := UintToArith256 params.powLimit
  let bnNew := (arith_uint256.SetCompact last.nBits).value
  let bnNew := arith_uint256.mul bnNew nActualTimespan
  let bnNew := bnNew / nTargetTimespan.toNat
  if bnNew > bnPowLimit then bnPowLimit else bnNew

/-- Lines 107-116: the retarget proper; `bnNew /= nTargetTimespan` stops on a
zero divisor. -/
def retarget (params : Params) (last : CBlockIndex) (nActualTimespan nTargetTimespan : Int) :
    Except Fault Nat :=
  if nTargetTimespan.toNat = 0 then .error .divByZero
  else .ok (arith_uint256.GetCompact (retargetValue params last nActualTimespan nTargetTimespan))

/-- The function `GetNextWorkRequired_V1` of lines 38-117. Line 40 reads
`pindexLast->nHeight` before the null test of line 47, so a null `pindexLast`
stops there; line 43 divides by `nPowTargetSpacing`. -/
def GetNextWorkRequired_V1 (pindexLast : List CBlockIndex) (pblock : Option CBlockHeader)
    (params : Params) : Except Fault Nat :=
  match pindexLast with
  | [] => .error .nullDeref
  | last :: pprev =>
    let nHeight : Int := (last.nHeight : Int) + 1
    -- line 43: DifficultyAdjustmentInterval() divides by the spacing
    if params.nPowTargetSpacing = 0 then .error .divByZero
    else
      let nProofOfWorkLimit := arith_uint256.GetCompact (UintToArith256 params.powLimit)
      -- line 47 cannot hold here: the pointer was read at line 40
      let nTargetTimespan := (retargetSettings params nHeight).1
      let nInterval := (retargetSettings params nHeight).2.1
      let nReTargetHistoryFact := (retargetSettings params nHeight).2.2
      -- line 57: `% nInterval`
      if nInterval = 0 then .error .divByZero
      else if Int.tmod ((last.nHeight : Int) + 1) nInterval ≠ 0 then
        if params.fPowAllowMinDifficultyBlocks then
          -- line 64: `pblock->GetBlockTime()`
          match pblock with
          | none => .error .nullDeref
          | some blk =>
            if blk.nTime > last.nTime + (params.nPowTargetSpacing : Int) * 2 then
              .ok nProofOfWorkLimit
            else
              .ok (minDifficultyWalk nInterval nProofOfWorkLimit last pprev).nBits
        else .ok last.nBits
      else
        let blockstogoback := blocksToGoBack params last.nHeight nInterval nReTargetHistoryFact
        -- lines 86-89: the loop and `assert(pindexFirst)`
        match walkBack blockstogoback.toNat (last :: pprev) with
        | [] => .error .assertFailed
        | first :: _ =>
          if params.fPowNoRetargeting then .ok last.nBits
          else
            retarget params last
              (actualTimespan params last first nTargetTimespan nReTargetHistoryFact)
              nTargetTimespan

/-! ## `GetNextWorkRequired_V2` (lines 119-209) -/

/-- The variables the loop of lines 146-196 updates. -/
structure WalkState where
  PastBlocksMass : Nat
  PastRateActualSeconds : Int
  PastRateTargetSeconds : Int
  PastDifficultyAverage : Int
  PastDifficultyAveragePrev : Int
  LatestBlockTime : Int
  deriving DecidableEq, Repr

/-- Lines 151-168: one pass of the loop body over `reading`, up to the
`double` part. `i` is the loop counter. -/
def walkStep (params : Params) (reading : CBlockIndex) (i : Nat) (s : WalkState) : WalkState :=
  let PastBlocksMass := s.PastBlocksMass + 1
  let PastDifficultyAverage : Int :=
    if i = 1 then CBigNum.SetCompact reading.nBits
    else
      Int.tdiv (CBigNum.SetCompact reading.nBits - s.PastDifficultyAveragePrev) i
        + s.PastDifficultyAveragePrev
  let LatestBlockTime := if s.LatestBlockTime < reading.nTime then reading.nTime
    else s.LatestBlockTime
  let PastRateActualSeconds := LatestBlockTime - reading.nTime
  let PastRateTargetSeconds : Int := (params.nPowTargetSpacing : Int) * PastBlocksMass
  let PastRateActualSeconds := if PastRateActualSeconds < 1 then 5 else PastRateActualSeconds
  { PastBlocksMass := PastBlocksMass
    PastRateActualSeconds := PastRateActualSeconds
    PastRateTargetSeconds := PastRateTargetSeconds
    PastDifficultyAverage := PastDifficultyAverage
    PastDifficultyAveragePrev := PastDifficultyAverage
    LatestBlockTime := LatestBlockTime }

/-- Lines 146-196: the backward walk. `horizon fTwoA mass target actual` is the
outcome of the floating-point test of line 183 for the fork flag of line 173,
`PastBlocksMass`, `PastRateTargetSeconds` and `PastRateActualSeconds`. -/
def walk (params : Params) (horizon : Bool → Nat → Int → Int → Bool) (fTwoA : Bool)
    (PastBlocksMin PastBlocksMax : Nat) : List CBlockIndex → Nat → WalkState → WalkState
  | [], _, s => s
  | reading :: pprev, i, s =>
    if reading.nHeight > 0 then
      if PastBlocksMax > 0 ∧ i > PastBlocksMax then s
      else
        let s1 := walkStep params reading i s
        if s1.PastBlocksMass ≥ PastBlocksMin ∧
            horizon fTwoA s1.PastBlocksMass s1.PastRateTargetSeconds s1.PastRateActualSeconds
              = true then s1
        else
          match pprev with
          | [] => s1
          | p :: rest => walk params horizon fTwoA PastBlocksMin PastBlocksMax (p :: rest) (i + 1) s1
    else s

/-- The state before the first pass: lines 132-137 and 145. -/
def walkInit (last : CBlockIndex) : WalkState :=
  { PastBlocksMass := 0
    PastRateActualSeconds := 0
    PastRateTargetSeconds := 0
    PastDifficultyAverage := 0
    PastDifficultyAveragePrev := 0
    LatestBlockTime := last.nTime }

/-- Lines 198-206: `bnNew` as it stands before it is encoded, from the
variables the walk leaves. -/
def finalTarget (s : WalkState) : Int :=
  let bnProofOfWorkLimit := CBigNum.SetCompact 504365055
  let bnNew : Int :=
    if s.PastRateActualSeconds ≠ 0 ∧ s.PastRateTargetSeconds ≠ 0 then
      Int.tdiv (s.PastDifficultyAverage * s.PastRateActualSeconds) s.PastRateTargetSeconds
    else s.PastDifficultyAverage
  if bnNew > bnProofOfWorkLimit then bnProofOfWorkLimit else bnNew

/-- The function `GetNextWorkRequired_V2` of lines 119-209. Line 125 reads
`pindexLast->nHeight` before the null test of line 142; `nTargetTimespan *
0.025` and `nTargetTimespan * 0.15` are 90 and 540 as `int64_t`; lines 128-129
divide by `nPowTargetSpacing`. -/
def GetNextWorkRequired_V2 (horizon : Bool → Nat → Int → Int → Bool)
    (pindexLast : List CBlockIndex) (params : Params) : Except Fault Nat :=
  match pindexLast with
  | [] => .error .nullDeref
  | last :: pprev =>
    let bnProofOfWorkLimit := CBigNum.SetCompact 504365055
    let fTwoA := decide ((last.nHeight : Int) + 1 ≥ params.nHardForkTwoA)
    let PastSecondsMin : Nat := if fTwoA then 540 else 90
    let PastSecondsMax : Nat := 60 * 60 * 7
    if params.nPowTargetSpacing = 0 then .error .divByZero
    else
      let PastBlocksMin := PastSecondsMin / params.nPowTargetSpacing
      let PastBlocksMax := PastSecondsMax / params.nPowTargetSpacing
      -- line 142: the pointer is not null here, and `(uint64_t)nHeight` is the height
      if last.nHeight = 0 ∨ last.nHeight < PastBlocksMin then
        .ok (CBigNum.GetCompact bnProofOfWorkLimit)
      else
        .ok (CBigNum.GetCompact (finalTarget
          (walk params horizon fTwoA PastBlocksMin PastBlocksMax (last :: pprev) 1
            (walkInit last))))

/-! ## `GetNextWorkRequired` (lines 16-36) and `CheckProofOfWork` (lines 211-228) -/

/-- The function `GetNextWorkRequired` of lines 16-36; line 18 reads
`pindexLast->nHeight`. -/
def GetNextWorkRequired (horizon : Bool → Nat → Int → Int → Bool)
    (pindexLast : List CBlockIndex) (pblock : Option CBlockHeader) (params : Params) :
    Except Fault Nat :=
  match pindexLast with
  | [] => .error .nullDeref
  | last :: _ =>
    let nHeight : Int := (last.nHeight : Int) + 1
    let DiffMode : Nat := if (last.nHeight : Int) ≥ params.nHardForkTwo then 2 else 1
    if nHeight = params.nHardForkThree then
      .ok (arith_uint256.GetCompact (UintToArith256 params.powLimit))
    else
      let DiffMode : Nat :=
        if nHeight ≥ params.nHardForkThree ∧ nHeight ≤ params.nHardForkThree + 10 then 1
        else DiffMode
      if DiffMode = 2 then GetNextWorkRequired_V2 horizon pindexLast params
      else GetNextWorkRequired_V1 pindexLast pblock params

/-- The function `CheckProofOfWork` of lines 211-228; `hash` is a `uint256`. -/
def CheckProofOfWork (hash : Nat) (nBits : Nat) (params : Params) : Bool :=
  let bnTarget := arith_uint256.SetCompact nBits
  if bnTarget.fNegative || decide (bnTarget.value = 0) || bnTarget.fOverflow ||
      decide (bnTarget.value > UintToArith256 params.powLimit) then false
  else if UintToArith256 hash > bnTarget.value then false
  else true

/-! ## The quantities the claims about `GetNextWorkRequired_V1` name -/

/-- The effective timespan `T` in the words of the claims: one hour once the
new height reaches `nHardForkOne`, the configured timespan before. -/
def effectiveTimespan (params : Params) (tipHeight : Nat) : Nat :=
  if (tipHeight : Int) + 1 ≥ params.nHardForkOne then 3600 else params.nPowTargetTimespan

/-- The effective interval in the words of the claims: `3600 / spacing` once
the new height reaches `nHardForkOne`, the configured interval before. -/
def effectiveInterval (params : Params) (tipHeight : Nat) : Nat :=
  if (tipHeight : Int) + 1 ≥ params.nHardForkOne then 3600 / params.nPowTargetSpacing
  else params.nPowTargetTimespan / params.nPowTargetSpacing

/-- The history factor in the words of the claims: 2 once the new height
reaches `nHardForkOne`, 4 before. -/
def historyFactor (params : Params) (tipHeight : Nat) : Nat :=
  if (tipHeight : Int) + 1 ≥ params.nHardForkOne then 2 else 4

/-- The value `raw` of the claims: the time between `first` and the tip,
divided by the history factor exactly when the tip is above `nCoinFix`. -/
def measuredTimespan (params : Params) (last first : CBlockIndex) : Int :=
  if (last.nHeight : Int) > params.nCoinFix then
    (last.nTime - first.nTime) / (historyFactor params last.nHeight : Int)
  else last.nTime - first.nTime

/-- The value `a` of the claims: `raw` clamped into `[T / 4, 4 * T]`. -/
def clampedTimespan (params : Params) (last first : CBlockIndex) : Nat :=
  (max ((effectiveTimespan params last.nHeight / 4 : Nat) : Int)
    (min (measuredTimespan params last first)
      ((4 * effectiveTimespan params last.nHeight : Nat) : Int))).toNat

/-- Lines 80-88: `pindexFirst` after the loop, for the tip `last` whose `pprev`
is `pprev`. -/
def lookback (params : Params) (last : CBlockIndex) (pprev : List CBlockIndex) :
    List CBlockIndex :=
  walkBack
    (blocksToGoBack params last.nHeight (retargetSettings params ((last.nHeight : Int) + 1)).2.1
      (retargetSettings params ((last.nHeight : Int) + 1)).2.2).toNat
    (last :: pprev)

/-! ## Sample inputs -/

/-- A configuration with a two-block interval before and after `nHardForkOne`. -/
def sampleParams : Params :=
  { powLimit := 2 ^ 236 - 1
    nPowTargetSpacing := 1800
    nPowTargetTimespan := 3600
    fPowAllowMinDifficultyBlocks := false
    fPowNoRetargeting := false
    nHardForkOne := 100
    nHardForkTwo := 200
    nHardForkTwoA := 300
    nHardForkThree := 400
    nCoinFix := 50 }

/-- A configuration whose block spacing of two hours exceeds the one-hour
timespan that applies from `nHardForkOne` on, so that the interval is 0. -/
def slowParams : Params :=
  { sampleParams with nPowTargetSpacing := 7200, nHardForkOne := 0 }

/-- A configuration with three blocks of 30 seconds per interval. -/
def shortParams : Params :=
  { sampleParams with nPowTargetSpacing := 30, nPowTargetTimespan := 90 }

/-- Three blocks found one second apart, at the heights 2, 1 and 0. -/
def fastChain : List CBlockIndex :=
  [⟨2, 1002, 0x1d00ffff⟩, ⟨1, 1001, 0x1d00ffff⟩, ⟨0, 1000, 0x1d00ffff⟩]

/-- Three blocks at the heights 2, 1 and 0, the tip 9000 seconds after the
first: a hundred times the timespan of `shortParams`. -/
def slowChain : List CBlockIndex :=
  [⟨2, 10000, 0x1d00ffff⟩, ⟨1, 5000, 0x1d00ffff⟩, ⟨0, 1000, 0x1d00ffff⟩]

/-- The sample configuration with `GetNextWorkRequired_V2` in force from the
first block. -/
def earlyParams : Params := { sampleParams with nHardForkTwo := 0 }

/-- A configuration whose `powLimit` of `2^224 - 1` is below the constant limit
of `GetNextWorkRequired_V2`, which is in force from the first block. -/
def tightParams : Params := { shortParams with powLimit := 2 ^ 224 - 1, nHardForkTwo := 0 }

/-- A `horizon` that never stops the walk of `GetNextWorkRequired_V2`. The
statements at explicit inputs name it only where the test of line 183 is not
reached or is without effect: on the paths that do not enter the walk, and on
chains for which `horizonIdle` holds. -/
def neverStop : Bool → Nat → Int → Int → Bool := fun _ _ _ _ => false

/-! ## Further definitions the claims name -/

/-- The selector of lines 16-36 without the grace-period step of lines 28-30:
the variant that claim C14 compares `GetNextWorkRequired` with. -/
def GetNextWorkRequired_noGrace (horizon : Bool → Nat → Int → Int → Bool)
    (pindexLast : List CBlockIndex) (pblock : Option CBlockHeader) (params : Params) :
    Except Fault Nat :=
  match pindexLast with
  | [] => .error .nullDeref
  | last :: _ =>
    let nHeight : Int := (last.nHeight : Int) + 1
    let DiffMode : Nat := if (last.nHeight : Int) ≥ params.nHardForkTwo then 2 else 1
    if nHeight = params.nHardForkThree then
      .ok (arith_uint256.GetCompact (UintToArith256 params.powLimit))
    else if DiffMode = 2 then GetNextWorkRequired_V2 horizon pindexLast params
    else GetNextWorkRequired_V1 pindexLast pblock params

/-- The sample configuration with `GetNextWorkRequired_V2` in force from the
first block and `fPowNoRetargeting` set. -/
def frozenParams : Params := { earlyParams with fPowNoRetargeting := true }

/-- The sample configuration with `fPowNoRetargeting` set and `nCoinFix` at 0,
so that the lookback above height 0 is four intervals of two blocks. -/
def frozenDeepParams : Params :=
  { sampleParams with fPowNoRetargeting := true, nCoinFix := 0 }

/-- The configuration `slowParams`, whose interval is 0, with
`fPowNoRetargeting` set. -/
def frozenSlowParams : Params := { slowParams with fPowNoRetargeting := true }

/-- The configuration `slowParams`, whose interval is 0, with
`fPowAllowMinDifficultyBlocks` set. -/
def lenientSlowParams : Params := { slowParams with fPowAllowMinDifficultyBlocks := true }

/-- A configuration with five blocks of 30 seconds per interval and
`fPowAllowMinDifficultyBlocks` set; the encoding of its `powLimit` is
`0x1e0fffff`. -/
def lenientParams : Params :=
  { sampleParams with
    nPowTargetSpacing := 30, nPowTargetTimespan := 150, fPowAllowMinDifficultyBlocks := true }

/-- Nine blocks at the heights 8 to 0: two at the limit bits on top of seven
with harder bits. -/
def lenientChain : List CBlockIndex :=
  [⟨8, 5000, 0x1e0fffff⟩, ⟨7, 4900, 0x1e0fffff⟩, ⟨6, 4870, 0x1d00ffff⟩, ⟨5, 4840, 0x1d00ffff⟩,
    ⟨4, 4810, 0x1d00ffff⟩, ⟨3, 4780, 0x1d00ffff⟩, ⟨2, 4750, 0x1d00ffff⟩, ⟨1, 4720, 0x1d00ffff⟩,
    ⟨0, 4690, 0x1d00ffff⟩]

/-- The sample configuration with a `powLimit` of `2^255 - 1`. -/
def wideParams : Params := { sampleParams with powLimit := 2 ^ 255 - 1 }

/-- Two blocks at the heights 1 and 0 with bits that decode to
`0x7fffff * 2^232`, the tip four hours after the first. -/
def wideChain : List CBlockIndex :=
  [⟨1, 15400, 0x207fffff⟩, ⟨0, 1000, 0x207fffff⟩]

/-- A chain as the data model describes it: heights go down by exactly 1 per
ancestor step and the last entry, the genesis block, is at height 0. -/
def linked : List CBlockIndex → Bool
  | [] => false
  | [e] => decide (e.nHeight = 0)
  | e :: p :: rest => decide (e.nHeight = p.nHeight + 1) && linked (p :: rest)

/-- The sample configuration with `nCoinFix` at 0, so that every tip above the
genesis block looks back four intervals of two blocks. -/
def deepParams : Params := { sampleParams with nCoinFix := 0 }

/-- Ten blocks at the heights 9 to 0, ten minutes apart. -/
def tenChain : List CBlockIndex :=
  [⟨9, 6400, 0x1d00ffff⟩, ⟨8, 5800, 0x1d00ffff⟩, ⟨7, 5200, 0x1d00ffff⟩, ⟨6, 4600, 0x1d00ffff⟩,
    ⟨5, 4000, 0x1d00ffff⟩, ⟨4, 3400, 0x1d00ffff⟩, ⟨3, 2800, 0x1d00ffff⟩, ⟨2, 2200, 0x1d00ffff⟩,
    ⟨1, 1600, 0x1d00ffff⟩, ⟨0, 1000, 0x1d00ffff⟩]

/-- Lines 153-156: the running average after the `i`-th entry, whose decoded
target is `d`, from the average `prev` of the entries before it. -/
def averageStep (i : Nat) (prev d : Int) : Int :=
  if i = 1 then d else Int.tdiv (d - prev) i + prev

/-- Lines 153-158 over a window: the running average after the decoded targets
`ds`, taken in this order from the loop counter `i` and the average `prev`. -/
def runningAverageFrom : Nat → Int → List Int → Int
  | _, prev, [] => prev
  | i, prev, d :: ds => runningAverageFrom (i + 1) (averageStep i prev d) ds

/-- Lines 153-158 over a window: the running average of the decoded targets
`ds`, from the first pass of the loop. -/
def runningAverage (ds : List Int) : Int := runningAverageFrom 1 0 ds

/-- The sample configuration with `GetNextWorkRequired_V2` in force from the
first block and a spacing of 30000 seconds, more than the 25200 seconds of the
maximum window. -/
def sparseParams : Params := { earlyParams with nPowTargetSpacing := 30000 }

/-! ## Inputs on which the floating-point test is without effect -/

/-- The configuration `shortParams` with `GetNextWorkRequired_V2` in force from
the first block: below `nHardForkTwoA` its `PastBlocksMin` is `90 / 30 = 3` and
its `PastBlocksMax` is `25200 / 30 = 840`. -/
def earlyShortParams : Params := { shortParams with nHardForkTwo := 0 }

/-- Four blocks at the heights 3 to 0, 30 seconds apart, with admissible bits. -/
def pacedChain : List CBlockIndex :=
  [⟨3, 1090, 0x1d00ffff⟩, ⟨2, 1060, 0x1c7fff80⟩, ⟨1, 1030, 0x1d00ffff⟩, ⟨0, 1000, 0x1d00ffff⟩]

/-- Four blocks at the heights 3 to 0, 72 seconds apart, whose bits carry the
sign bit over the mantissa and size of 504365055. -/
def minusChain : List CBlockIndex :=
  [⟨3, 1216, 0x1e8fffff⟩, ⟨2, 1144, 0x1e8fffff⟩, ⟨1, 1072, 0x1e8fffff⟩, ⟨0, 1000, 0x1e8fffff⟩]

/-- Four blocks at the heights 3 to 0, one second apart. -/
def briskChain : List CBlockIndex :=
  [⟨3, 1003, 0x1d00ffff⟩, ⟨2, 1002, 0x1d00ffff⟩, ⟨1, 1001, 0x1d00ffff⟩, ⟨0, 1000, 0x1d00ffff⟩]

/-- Whether the floating-point test of line 183 is without effect on the walk
of lines 146-196 from the entry at the head of the chain, the loop counter `i`
and `mass` entries processed: every pass that reaches the test is the last pass
whatever the test answers, because the entry behind is missing, at height 0 or
cut by the test of line 148. -/
def horizonIdle (PastBlocksMin PastBlocksMax : Nat) : List CBlockIndex → Nat → Nat → Bool
  | [], _, _ => true
  | reading :: pprev, i, mass =>
    if reading.nHeight > 0 then
      if PastBlocksMax > 0 ∧ i > PastBlocksMax then true
      else if mass + 1 ≥ PastBlocksMin then
        match pprev with
        | [] => true
        | p :: _ => decide (p.nHeight = 0) || decide (PastBlocksMax > 0 ∧ i + 1 > PastBlocksMax)
      else horizonIdle PastBlocksMin PastBlocksMax pprev (i + 1) (mass + 1)
    else true

/-- Two blocks at the heights 1 and 0, one second apart. -/
def pairChain : List CBlockIndex :=
  [⟨1, 1001, 0x1d00ffff⟩, ⟨0, 1000, 0x1d00ffff⟩]

/-! ## The codec: decoding an encoded value never exceeds it -/

theorem bytesAux_zero (fuel : Nat) : bytesAux fuel 0 = 0 := by
  cases fuel <;> simp [bytesAux]

theorem bytesAux_spec (fuel : Nat) : ∀ x : Nat, x < 256 ^ fuel →
    x < 256 ^ bytesAux fuel x ∧ (x ≠ 0 → 256 ^ (bytesAux fuel x - 1) ≤ x) := by
  induction fuel with
  | zero =>
    intro x hx
    simp at hx
    subst hx
    simp [bytesAux]
  | succ f ih =>
    intro x hx
    by_cases h0 : x = 0
    · subst h0
      simp [bytesAux]
    · have hdiv : x / 256 < 256 ^ f := by
        apply Nat.div_lt_of_lt_mul
        rw [Nat.pow_succ, Nat.mul_comm] at hx
        exact hx
      obtain ⟨ih1, ih2⟩ := ih (x / 256) hdiv
      have hstep : bytesAux (f + 1) x = bytesAux f (x / 256) + 1 := by
        simp [bytesAux, h0]
      rw [hstep]
      constructor
      · rw [Nat.pow_succ]
        have := Nat.div_add_mod x 256
        have := Nat.mod_lt x (by norm_num : 0 < 256)
        omega
      · intro _
        rw [Nat.add_sub_cancel]
        by_cases hd : x / 256 = 0
        · rw [hd, bytesAux_zero]
          simp
          omega
        · have h2 := ih2 hd
          have hk : bytesAux f (x / 256) ≠ 0 := by
            intro hk
            rw [hk] at ih1
            simp at ih1
            exact hd ih1
          have hpow : 256 ^ bytesAux f (x / 256) = 256 ^ (bytesAux f (x / 256) - 1) * 256 := by
            rw [← Nat.pow_succ]
            congr 1
            omega
          rw [hpow]
          have := Nat.div_mul_le_self x 256
          calc 256 ^ (bytesAux f (x / 256) - 1) * 256 ≤ x / 256 * 256 :=
                Nat.mul_le_mul_right 256 h2
            _ ≤ x := this

theorem byteLen_spec (x : Nat) :
    x < 256 ^ byteLen x ∧ (x ≠ 0 → 256 ^ (byteLen x - 1) ≤ x) :=
  bytesAux_spec x x (Nat.lt_pow_self (by norm_num) x)

theorem byteLen_le (x : Nat) (hx : x < 2 ^ 256) : byteLen x ≤ 32 := by
  by_cases h0 : x = 0
  · subst h0
    simp [byteLen, bytesAux_zero]
  · have h := (byteLen_spec x).2 h0
    have h2 : 256 ^ (byteLen x - 1) < 256 ^ 32 := by
      calc 256 ^ (byteLen x - 1) ≤ x := h
        _ < 2 ^ 256 := hx
        _ = 256 ^ 32 := by norm_num
    have := (Nat.pow_lt_pow_iff_right (by norm_num : 1 < 256)).mp h2
    omega

theorem pow_eight_mul (k : Nat) : 2 ^ (8 * k) = 256 ^ k := by
  rw [Nat.pow_mul]

/-- The three leading bytes of `x`, as `compactOfMagnitude` takes them. -/
theorem leading_lt (x : Nat) :
    (if byteLen x ≤ 3 then x * 2 ^ (8 * (3 - byteLen x)) else x / 2 ^ (8 * (byteLen x - 3)))
      < 2 ^ 24 := by
  have h1 := (byteLen_spec x).1
  split_ifs with h
  · rw [pow_eight_mul]
    calc x * 256 ^ (3 - byteLen x) < 256 ^ byteLen x * 256 ^ (3 - byteLen x) :=
          Nat.mul_lt_mul_of_pos_right h1 (Nat.pow_pos (by norm_num))
      _ = 256 ^ 3 := by rw [← Nat.pow_add]; congr 1; omega
      _ = 2 ^ 24 := by norm_num
  · rw [pow_eight_mul]
    apply Nat.div_lt_of_lt_mul
    calc x < 256 ^ byteLen x := h1
      _ = 256 ^ (byteLen x - 3) * 256 ^ 3 := by rw [← Nat.pow_add]; congr 1; omega
      _ = 256 ^ (byteLen x - 3) * 2 ^ 24 := by norm_num

theorem setCompact_of_parts (m size : Nat) (hm : m < 2 ^ 23) (hsize : size ≤ 255) :
    (arith_uint256.SetCompact ((m + size * 2 ^ 24) % 2 ^ 32)).value =
      (if size ≤ 3 then m / 2 ^ (8 * (3 - size)) else m * 2 ^ (8 * (size - 3))) % 2 ^ 256 := by
  have e1 : (m + size * 2 ^ 24) % 2 ^ 32 = m + size * 2 ^ 24 := by
    apply Nat.mod_eq_of_lt
    norm_num at hm ⊢
    omega
  have e2 : (m + size * 2 ^ 24) / 2 ^ 24 = size := by
    norm_num at hm ⊢
    omega
  have e3 : (m + size * 2 ^ 24) % 2 ^ 23 = m := by
    norm_num at hm ⊢
    omega
  simp only [arith_uint256.SetCompact, compactWord, e1, e2, e3]
  split_ifs <;> rfl

theorem decode_encode_le (x : Nat) (hx : x < 2 ^ 256) :
    (arith_uint256.SetCompact (arith_uint256.GetCompact x)).value ≤ x := by
  have hn := byteLen_le x hx
  have hc := leading_lt x
  unfold arith_uint256.GetCompact compactOfMagnitude
  simp only []
  generalize hcdef : (if byteLen x ≤ 3 then x * 2 ^ (8 * (3 - byteLen x))
    else x / 2 ^ (8 * (byteLen x - 3))) = c at hc
  generalize byteLen x = n at hn hcdef
  by_cases hbit : c / 2 ^ 23 % 2 = 1
  · rw [if_pos hbit]
    have hm : c / 2 ^ 8 < 2 ^ 23 := by
      norm_num at hc ⊢
      omega
    rw [setCompact_of_parts _ _ hm (by omega)]
    apply le_trans (Nat.mod_le _ _)
    by_cases h3 : n ≤ 3
    · rw [if_pos h3] at hcdef
      by_cases h2 : n + 1 ≤ 3
      · rw [if_pos h2]
        subst hcdef
        have e : 2 ^ (8 * (3 - n)) = 2 ^ 8 * 2 ^ (8 * (3 - (n + 1))) := by
          rw [← Nat.pow_add]; congr 1; omega
        rw [Nat.div_div_eq_div_mul, ← e, Nat.mul_div_cancel _ (Nat.pow_pos (by norm_num))]
      · rw [if_neg h2]
        have hn3 : n = 3 := by omega
        subst hn3
        subst hcdef
        simp only [Nat.sub_self, Nat.mul_zero, Nat.pow_zero, Nat.mul_one]
        have : 3 + 1 - 3 = 1 := rfl
        rw [this]
        exact Nat.div_mul_le_self x (2 ^ (8 * 1))
    · rw [if_neg h3] at hcdef
      rw [if_neg (by omega)]
      subst hcdef
      have e : 2 ^ (8 * (n + 1 - 3)) = 2 ^ (8 * (n - 3)) * 2 ^ 8 := by
        rw [← Nat.pow_add]; congr 1; omega
      rw [Nat.div_div_eq_div_mul, e]
      exact Nat.div_mul_le_self x _
  · rw [if_neg hbit]
    have hm : c < 2 ^ 23 := by
      norm_num at hc hbit ⊢
      omega
    rw [setCompact_of_parts _ _ hm (by omega)]
    apply le_trans (Nat.mod_le _ _)
    by_cases h3 : n ≤ 3
    · rw [if_pos h3] at hcdef
      rw [if_pos h3]
      subst hcdef
      rw [Nat.mul_div_cancel _ (Nat.pow_pos (by norm_num))]
    · rw [if_neg h3] at hcdef
      rw [if_neg h3]
      subst hcdef
      exact Nat.div_mul_le_self x _

theorem minDifficultyWalk_mem (nInterval : Int) (limit : Nat) :
    ∀ (rest : List CBlockIndex) (e : CBlockIndex),
      minDifficultyWalk nInterval limit e rest ∈ e :: rest := by
  intro rest
  induction rest with
  | nil => intro e; simp [minDifficultyWalk]
  | cons p rest ih =>
    intro e
    simp only [minDifficultyWalk]
    split_ifs
    · exact List.mem_cons_of_mem _ (ih p)
    · exact List.mem_cons_self _ _

theorem cbignum_nonneg (b : Nat) (h : (arith_uint256.SetCompact b).fNegative = false) :
    0 ≤ CBigNum.SetCompact b := by
  unfold CBigNum.SetCompact
  split_ifs with hbit
  · have hw : (compactWord b).1 = 0 := by
      simp only [arith_uint256.SetCompact, hbit, decide_True, Bool.and_true,
        decide_eq_false_iff_not, not_not] at h
      exact h
    have hm : (compactWord b).2 = 0 := by
      unfold compactWord at hw ⊢
      simp only [] at hw ⊢
      split_ifs at hw ⊢
      · exact hw
      · simp only [] at hw
        rw [hw, Nat.zero_mul]
    rw [hm]
    simp
  · exact Int.ofNat_nonneg _

theorem average_step_nonneg (c p : Int) (i : Nat) (hc : 0 ≤ c) (hp : 0 ≤ p) :
    0 ≤ Int.tdiv (c - p) i + p := by
  rcases le_or_lt p c with h | h
  · have := Int.tdiv_nonneg (a := c - p) (b := (i : Int)) (by omega) (by omega)
    omega
  · have e : c - p = -(p - c) := by omega
    rw [e, Int.neg_tdiv, Int.tdiv_eq_ediv (by omega) (Int.ofNat_nonneg i)]
    have := Int.ediv_le_self (i : Int) (show 0 ≤ p - c by omega)
    omega

theorem walkStep_nonneg (params : Params) (reading : CBlockIndex) (i : Nat) (s : WalkState)
    (hr : 0 ≤ CBigNum.SetCompact reading.nBits)
    (hs : 0 ≤ s.PastDifficultyAveragePrev) :
    0 ≤ (walkStep params reading i s).PastDifficultyAverage ∧
      0 ≤ (walkStep params reading i s).PastDifficultyAveragePrev ∧
      0 ≤ (walkStep params reading i s).PastRateActualSeconds ∧
      0 ≤ (walkStep params reading i s).PastRateTargetSeconds := by
  have havg : 0 ≤ (if i = 1 then CBigNum.SetCompact reading.nBits
      else Int.tdiv (CBigNum.SetCompact reading.nBits - s.PastDifficultyAveragePrev) i
        + s.PastDifficultyAveragePrev) := by
    split_ifs
    · exact hr
    · exact average_step_nonneg _ _ _ hr hs
  refine ⟨havg, havg, ?_, ?_⟩
  · simp only [walkStep]
    split_ifs <;> omega
  · simp only [walkStep]
    positivity

theorem walk_cons (params : Params) (horizon : Bool → Nat → Int → Int → Bool) (fTwoA : Bool)
    (lo hi : Nat) (reading : CBlockIndex) (pprev : List CBlockIndex) (i : Nat) (s : WalkState) :
    walk params horizon fTwoA lo hi (reading :: pprev) i s =
      if reading.nHeight > 0 then
        if hi > 0 ∧ i > hi then s
        else if (walkStep params reading i s).PastBlocksMass ≥ lo ∧
            horizon fTwoA (walkStep params reading i s).PastBlocksMass
              (walkStep params reading i s).PastRateTargetSeconds
              (walkStep params reading i s).PastRateActualSeconds = true then
          walkStep params reading i s
        else walk params horizon fTwoA lo hi pprev (i + 1) (walkStep params reading i s)
      else s := by
  cases pprev with
  | nil => simp only [walk]
  | cons p rest => rw [walk]

theorem walk_nonneg (params : Params) (horizon : Bool → Nat → Int → Int → Bool) (fTwoA : Bool)
    (lo hi : Nat) : ∀ (chain : List CBlockIndex) (i : Nat) (s : WalkState),
      (∀ e ∈ chain, 0 ≤ CBigNum.SetCompact e.nBits) →
      (0 ≤ s.PastDifficultyAverage ∧ 0 ≤ s.PastDifficultyAveragePrev ∧
        0 ≤ s.PastRateActualSeconds ∧ 0 ≤ s.PastRateTargetSeconds) →
      0 ≤ (walk params horizon fTwoA lo hi chain i s).PastDifficultyAverage ∧
        0 ≤ (walk params horizon fTwoA lo hi chain i s).PastDifficultyAveragePrev ∧
        0 ≤ (walk params horizon fTwoA lo hi chain i s).PastRateActualSeconds ∧
        0 ≤ (walk params horizon fTwoA lo hi chain i s).PastRateTargetSeconds := by
  intro chain
  induction chain with
  | nil => intro i s _ hs; simpa [walk] using hs
  | cons reading pprev ih =>
    intro i s hall hs
    have hstep := walkStep_nonneg params reading i s
      (hall reading (List.mem_cons_self _ _)) hs.2.1
    have hrec := ih (i + 1) (walkStep params reading i s)
      (fun e he => hall e (List.mem_cons_of_mem _ he)) hstep
    rw [walk_cons]
    split_ifs <;> first | exact hs | exact hstep | exact hrec

theorem getCompact_of_nonneg (x : Int) (hx : 0 ≤ x) :
    CBigNum.GetCompact x = arith_uint256.GetCompact x.natAbs := by
  unfold CBigNum.GetCompact arith_uint256.GetCompact
  rw [if_neg (by omega), Nat.add_zero]

theorem finalTarget_encoding_le (s : WalkState) (h1 : 0 ≤ s.PastDifficultyAverage)
    (h2 : 0 ≤ s.PastRateActualSeconds) (h3 : 0 ≤ s.PastRateTargetSeconds) :
    (arith_uint256.SetCompact (CBigNum.GetCompact (finalTarget s))).value
      ≤ (arith_uint256.SetCompact 504365055).value := by
  have hL : CBigNum.SetCompact 504365055 = ((arith_uint256.SetCompact 504365055).value : Int) := by
    decide
  have hLlt : (arith_uint256.SetCompact 504365055).value < 2 ^ 256 := by decide
  have hx : 0 ≤ (if s.PastRateActualSeconds ≠ 0 ∧ s.PastRateTargetSeconds ≠ 0 then
      Int.tdiv (s.PastDifficultyAverage * s.PastRateActualSeconds) s.PastRateTargetSeconds
    else s.PastDifficultyAverage) := by
    split_ifs
    · exact Int.tdiv_nonneg (mul_nonneg h1 h2) h3
    · exact h1
  simp only [finalTarget]
  generalize (if s.PastRateActualSeconds ≠ 0 ∧ s.PastRateTargetSeconds ≠ 0 then
      Int.tdiv (s.PastDifficultyAverage * s.PastRateActualSeconds) s.PastRateTargetSeconds
    else s.PastDifficultyAverage) = x at hx
  rw [hL]
  generalize (arith_uint256.SetCompact 504365055).value = L at hLlt
  have hy : 0 ≤ (if x > (L : Int) then (L : Int) else x) ∧
      (if x > (L : Int) then (L : Int) else x) ≤ L := by
    split_ifs <;> omega
  generalize (if x > (L : Int) then (L : Int) else x) = y at hy
  rw [getCompact_of_nonneg y hy.1]
  have hn : y.natAbs ≤ L := by omega
  exact le_trans (decode_encode_le _ (lt_of_le_of_lt hn hLlt)) hn

theorem V2_result_le (horizon : Bool → Nat → Int → Int → Bool) (last : CBlockIndex)
    (pprev : List CBlockIndex) (params : Params) (r : Nat)
    (hchain : ∀ e ∈ last :: pprev, (arith_uint256.SetCompact e.nBits).fNegative = false)
    (hr : GetNextWorkRequired_V2 horizon (last :: pprev) params = .ok r) :
    (arith_uint256.SetCompact r).value ≤ (arith_uint256.SetCompact 504365055).value := by
  have hc : CBigNum.GetCompact (CBigNum.SetCompact 504365055) = 504365055 := by decide
  simp only [GetNextWorkRequired_V2] at hr
  by_cases hs : params.nPowTargetSpacing = 0
  · rw [if_pos hs] at hr
    cases hr
  · rw [if_neg hs] at hr
    have hinit : 0 ≤ (walkInit last).PastDifficultyAverage ∧
        0 ≤ (walkInit last).PastDifficultyAveragePrev ∧
        0 ≤ (walkInit last).PastRateActualSeconds ∧
        0 ≤ (walkInit last).PastRateTargetSeconds := by
      simp [walkInit]
    have hall : ∀ e ∈ last :: pprev, 0 ≤ CBigNum.SetCompact e.nBits :=
      fun e he => cbignum_nonneg _ (hchain e he)
    split_ifs at hr
    all_goals
      have hr2 := Except.ok.inj hr
      rw [← hr2]
      first
      | rw [hc]
      | exact finalTarget_encoding_le _
          (walk_nonneg params horizon _ _ _ _ _ _ hall hinit).1
          (walk_nonneg params horizon _ _ _ _ _ _ hall hinit).2.2.1
          (walk_nonneg params horizon _ _ _ _ _ _ hall hinit).2.2.2

/-! ## Inputs on which the floating-point test is without effect -/

theorem walk_horizon_idle (params : Params) (horizon horizon2 : Bool → Nat → Int → Int → Bool)
    (fTwoA : Bool) (lo hi : Nat) : ∀ (chain : List CBlockIndex) (i : Nat) (s : WalkState),
      horizonIdle lo hi chain i s.PastBlocksMass = true →
      walk params horizon fTwoA lo hi chain i s = walk params horizon2 fTwoA lo hi chain i s := by
  intro chain
  induction chain with
  | nil => intro i s _; simp [walk]
  | cons reading pprev ih =>
    intro i s h
    rw [walk_cons, walk_cons]
    by_cases hh : reading.nHeight > 0
    · rw [if_pos hh, if_pos hh]
      by_cases hcut : hi > 0 ∧ i > hi
      · rw [if_pos hcut, if_pos hcut]
      · rw [if_neg hcut, if_neg hcut]
        by_cases hmass : s.PastBlocksMass + 1 ≥ lo
        · have hend : ∀ hz : Bool → Nat → Int → Int → Bool,
              walk params hz fTwoA lo hi pprev (i + 1) (walkStep params reading i s)
                = walkStep params reading i s := by
            intro hz
            cases pprev with
            | nil => simp [walk]
            | cons p rest =>
              simp only [horizonIdle, if_pos hh, if_neg hcut, if_pos hmass, Bool.or_eq_true,
                decide_eq_true_eq] at h
              rw [walk_cons]
              by_cases hp : p.nHeight > 0
              · rw [if_pos hp]
                rcases h with h | h
                · omega
                · rw [if_pos h]
              · rw [if_neg hp]
          rw [hend horizon, hend horizon2]
          simp
        · have hm : (walkStep params reading i s).PastBlocksMass = s.PastBlocksMass + 1 := rfl
          have hlt : ¬ (walkStep params reading i s).PastBlocksMass ≥ lo := by
            rw [hm]
            exact hmass
          rw [if_neg (fun hc => hlt hc.1), if_neg (fun hc => hlt hc.1)]
          apply ih
          rw [hm]
          cases pprev with
          | nil => simp [horizonIdle]
          | cons p rest =>
            simpa only [horizonIdle, if_pos hh, if_neg hcut, if_neg hmass] using h
    · rw [if_neg hh, if_neg hh]

theorem V2_horizon_idle (horizon horizon2 : Bool → Nat → Int → Int → Bool) (last : CBlockIndex)
    (pprev : List CBlockIndex) (params : Params)
    (h : horizonIdle
      ((if (last.nHeight : Int) + 1 ≥ params.nHardForkTwoA then 540 else 90)
        / params.nPowTargetSpacing)
      (25200 / params.nPowTargetSpacing) (last :: pprev) 1 0 = true) :
    GetNextWorkRequired_V2 horizon (last :: pprev) params
      = GetNextWorkRequired_V2 horizon2 (last :: pprev) params := by
  have hw := fun (f : Bool) =>
    walk_horizon_idle params horizon horizon2 f
      ((if (last.nHeight : Int) + 1 ≥ params.nHardForkTwoA then 540 else 90)
        / params.nPowTargetSpacing)
      (25200 / params.nPowTargetSpacing) (last :: pprev) 1 (walkInit last) h
  simp only [GetNextWorkRequired_V2]
  by_cases hA : (last.nHeight : Int) + 1 ≥ params.nHardForkTwoA
  · simp only [hA, decide_True, if_true] at hw ⊢
    rw [hw true]
  · simp only [hA, decide_False, if_false, Bool.false_eq_true] at hw ⊢
    rw [hw false]

theorem selector_horizon_idle (horizon horizon2 : Bool → Nat → Int → Int → Bool)
    (last : CBlockIndex) (pprev : List CBlockIndex) (pblock : Option CBlockHeader)
    (params : Params)
    (h : horizonIdle
      ((if (last.nHeight : Int) + 1 ≥ params.nHardForkTwoA then 540 else 90)
        / params.nPowTargetSpacing)
      (25200 / params.nPowTargetSpacing) (last :: pprev) 1 0 = true) :
    GetNextWorkRequired horizon (last :: pprev) pblock params
      = GetNextWorkRequired horizon2 (last :: pprev) pblock params := by
  simp only [GetNextWorkRequired, V2_horizon_idle horizon horizon2 last pprev params h]

/-! ## The verifier and the selector -/

/-- C1: `CheckProofOfWork` returns true exactly when the decoded bits are not
negative, not overflowing, give a non-zero target that is at most `powLimit`,
and the hash as a 256-bit number is at most that target. -/
theorem C1_checkProofOfWork_iff (hash nBits : Nat) (params : Params) :
    CheckProofOfWork hash nBits params = true ↔
      ((arith_uint256.SetCompact nBits).fNegative = false ∧
        (arith_uint256.SetCompact nBits).fOverflow = false ∧
        (arith_uint256.SetCompact nBits).value ≠ 0 ∧
        (arith_uint256.SetCompact nBits).value ≤ UintToArith256 params.powLimit ∧
        UintToArith256 hash ≤ (arith_uint256.SetCompact nBits).value) := by
  simp only [CheckProofOfWork]
  split_ifs with h1 h2
  · simp only [Bool.or_eq_true, decide_eq_true_eq] at h1
    constructor
    · intro h; cases h
    · rintro ⟨hn, ho, hz, hl, -⟩
      rcases h1 with ((h | h) | h) | h
      · simp [hn] at h
      · exact hz h
      · simp [ho] at h
      · omega
  · constructor
    · intro h; cases h
    · rintro ⟨-, -, -, -, hc⟩; omega
  · simp only [Bool.or_eq_true, decide_eq_true_eq, not_or, Bool.not_eq_true] at h1
    obtain ⟨⟨⟨hn, hz⟩, ho⟩, hl⟩ := h1
    simp only [true_iff]
    exact ⟨hn, ho, hz, by omega, by omega⟩

/-- C3: at `nHeight == nHardForkThree` the selector returns the compact
encoding of `powLimit`, whatever the chain, the header and the other
parameters. -/
theorem C3_reset_at_hardForkThree (horizon : Bool → Nat → Int → Int → Bool)
    (last : CBlockIndex) (pprev : List CBlockIndex) (pblock : Option CBlockHeader)
    (params : Params) (h : (last.nHeight : Int) + 1 = params.nHardForkThree) :
    GetNextWorkRequired horizon (last :: pprev) pblock params
      = .ok (arith_uint256.GetCompact (UintToArith256 params.powLimit)) := by
  simp [GetNextWorkRequired, h]

/-- C4: away from the reset height the selector is `GetNextWorkRequired_V2`
when the tip is at or above `nHardForkTwo` and the new height is outside
`[nHardForkThree, nHardForkThree + 10]`, and `GetNextWorkRequired_V1`
otherwise. -/
theorem C4_dispatch (horizon : Bool → Nat → Int → Int → Bool)
    (last : CBlockIndex) (pprev : List CBlockIndex) (pblock : Option CBlockHeader)
    (params : Params) (h : (last.nHeight : Int) + 1 ≠ params.nHardForkThree) :
    GetNextWorkRequired horizon (last :: pprev) pblock params =
      if (last.nHeight : Int) ≥ params.nHardForkTwo ∧
          ¬ (params.nHardForkThree ≤ (last.nHeight : Int) + 1 ∧
            (last.nHeight : Int) + 1 ≤ params.nHardForkThree + 10) then
        GetNextWorkRequired_V2 horizon (last :: pprev) params
      else GetNextWorkRequired_V1 (last :: pprev) pblock params := by
  simp only [GetNextWorkRequired, if_neg h]
  by_cases h2 : (last.nHeight : Int) ≥ params.nHardForkTwo <;>
    by_cases h3 : (params.nHardForkThree ≤ (last.nHeight : Int) + 1 ∧
            (last.nHeight : Int) + 1 ≤ params.nHardForkThree + 10) <;>
    simp [h2, h3]

/-- C9: with a null `pindexLast`, `GetNextWorkRequired_V1` stops at the read of
`pindexLast->nHeight` (line 40) and never reaches the genesis return of line
48. -/
theorem C9_V1_null_tip_faults (pblock : Option CBlockHeader) (params : Params) :
    GetNextWorkRequired_V1 [] pblock params = .error .nullDeref := by
  rfl

/-- Witness of C3: the tip at height 399 under `sampleParams`. -/
theorem C3_reset_at_hardForkThree_witness :
    ((399 : Nat) : Int) + 1 = sampleParams.nHardForkThree ∧
      GetNextWorkRequired neverStop [⟨399, 1000, 0x1d00ffff⟩] none sampleParams
        = .ok (arith_uint256.GetCompact (UintToArith256 sampleParams.powLimit)) :=
  ⟨by decide, C3_reset_at_hardForkThree neverStop ⟨399, 1000, 0x1d00ffff⟩ [] none sampleParams
    (by decide)⟩

/-- Witness of C4: the tip at height 250 under `sampleParams`, which is
dispatched to `GetNextWorkRequired_V2`. -/
theorem C4_dispatch_witness :
    ((250 : Nat) : Int) + 1 ≠ sampleParams.nHardForkThree ∧
      GetNextWorkRequired neverStop [⟨250, 1000, 0x1d00ffff⟩] none sampleParams
        = GetNextWorkRequired_V2 neverStop [⟨250, 1000, 0x1d00ffff⟩] sampleParams :=
  ⟨by decide, by
    rw [C4_dispatch neverStop ⟨250, 1000, 0x1d00ffff⟩ [] none sampleParams (by decide)]
    rfl⟩

/-! ## The early return of `GetNextWorkRequired_V2` -/

/-- C10: with a positive spacing, a tip at height 0 or below the minimum block
count (540 / spacing from `nHardForkTwoA` on, 90 / spacing before) gets the
constant 504365055, which the codec of `CBigNum` maps to itself. -/
theorem C10_V2_short_chain (horizon : Bool → Nat → Int → Int → Bool)
    (last : CBlockIndex) (pprev : List CBlockIndex) (params : Params)
    (hs : 0 < params.nPowTargetSpacing)
    (hshort : last.nHeight = 0 ∨
      last.nHeight < (if (last.nHeight : Int) + 1 ≥ params.nHardForkTwoA
        then 540 / params.nPowTargetSpacing else 90 / params.nPowTargetSpacing)) :
    GetNextWorkRequired_V2 horizon (last :: pprev) params = .ok 504365055 ∧
      CBigNum.GetCompact (CBigNum.SetCompact 504365055) = 504365055 := by
  have hc : CBigNum.GetCompact (CBigNum.SetCompact 504365055) = 504365055 := by decide
  refine ⟨?_, hc⟩
  have hs0 : params.nPowTargetSpacing ≠ 0 := by omega
  simp only [GetNextWorkRequired_V2, if_neg hs0]
  by_cases hA : (last.nHeight : Int) + 1 ≥ params.nHardForkTwoA
  · simp only [hA, decide_True, if_true] at hshort ⊢
    rw [if_pos hshort, hc]
  · simp only [hA, decide_False, if_false] at hshort ⊢
    simp only [Bool.false_eq_true, if_false]
    rw [if_pos hshort, hc]

/-- Witness of C10: a tip at height 3 with a spacing of 10 seconds, where the
minimum block count is 9. -/
theorem C10_V2_short_chain_witness :
    0 < ({ sampleParams with nPowTargetSpacing := 10 } : Params).nPowTargetSpacing ∧
      GetNextWorkRequired_V2 neverStop [⟨3, 1000, 0x1d00ffff⟩, ⟨2, 900, 0x1d00ffff⟩]
        { sampleParams with nPowTargetSpacing := 10 } = .ok 504365055 :=
  ⟨by decide, (C10_V2_short_chain neverStop ⟨3, 1000, 0x1d00ffff⟩ [⟨2, 900, 0x1d00ffff⟩]
    { sampleParams with nPowTargetSpacing := 10 } (by decide) (Or.inr (by decide))).1⟩

/-! ## `GetNextWorkRequired_V1` -/

theorem retargetSettings_eq (params : Params) (h : Nat) :
    retargetSettings params ((h : Int) + 1) =
      ((effectiveTimespan params h : Int), (effectiveInterval params h : Int),
        (historyFactor params h : Int)) := by
  unfold retargetSettings effectiveTimespan effectiveInterval historyFactor
    Params.DifficultyAdjustmentInterval
  split_ifs with hf
  · have : ((60 : Int) * 60) = ((3600 : Nat) : Int) := by norm_num
    rw [this, ← Int.ofNat_tdiv]
    rfl
  · rw [← Int.ofNat_tdiv]
    rfl

theorem spacing_ne_zero_of_interval (params : Params) (h : Nat)
    (hI : effectiveInterval params h ≠ 0) : params.nPowTargetSpacing ≠ 0 := by
  intro h0
  apply hI
  unfold effectiveInterval
  simp [h0]

theorem timespan_pos_of_interval (params : Params) (h : Nat)
    (hI : effectiveInterval params h ≠ 0) : 0 < effectiveTimespan params h := by
  unfold effectiveInterval at hI
  unfold effectiveTimespan
  split_ifs with hf
  · omega
  · rw [if_neg hf] at hI
    rcases Nat.eq_zero_or_pos params.nPowTargetTimespan with h0 | h0
    · simp [h0] at hI
    · exact h0

theorem V1_unfold (last : CBlockIndex) (pprev : List CBlockIndex) (pblock : Option CBlockHeader)
    (params : Params) (hI : effectiveInterval params last.nHeight ≠ 0) :
    GetNextWorkRequired_V1 (last :: pprev) pblock params =
      if (last.nHeight + 1) % effectiveInterval params last.nHeight ≠ 0 then
        if params.fPowAllowMinDifficultyBlocks then
          match pblock with
          | none => .error .nullDeref
          | some blk =>
            if blk.nTime > last.nTime + (params.nPowTargetSpacing : Int) * 2 then
              .ok (arith_uint256.GetCompact (UintToArith256 params.powLimit))
            else
              .ok (minDifficultyWalk (effectiveInterval params last.nHeight)
                (arith_uint256.GetCompact (UintToArith256 params.powLimit)) last pprev).nBits
        else .ok last.nBits
      else
        match lookback params last pprev with
        | [] => .error .assertFailed
        | first :: _ =>
          if params.fPowNoRetargeting then .ok last.nBits
          else
            retarget params last
              (actualTimespan params last first (effectiveTimespan params last.nHeight)
                (historyFactor params last.nHeight))
              (effectiveTimespan params last.nHeight) := by
  have hs := spacing_ne_zero_of_interval params last.nHeight hI
  have hI2 : ((effectiveInterval params last.nHeight : Nat) : Int) ≠ 0 := by exact_mod_cast hI
  have hm : Int.tmod ((last.nHeight : Int) + 1) (effectiveInterval params last.nHeight : Int)
      = (((last.nHeight + 1) % effectiveInterval params last.nHeight : Nat) : Int) := by
    rw [Int.ofNat_tmod]; push_cast; rfl
  simp only [GetNextWorkRequired_V1, lookback, retargetSettings_eq, if_neg hs, if_neg hI2, hm]
  by_cases hb : (last.nHeight + 1) % effectiveInterval params last.nHeight = 0
  · have hb2 : ¬ ((((last.nHeight + 1) % effectiveInterval params last.nHeight : Nat) : Int) ≠ 0) := by
      simp [hb]
    rw [if_neg hb2, if_neg (not_not.mpr hb)]
  · have hb2 : (((last.nHeight + 1) % effectiveInterval params last.nHeight : Nat) : Int) ≠ 0 := by
      exact_mod_cast hb
    rw [if_pos hb2, if_pos hb]

theorem tdiv_of_neg_le (a b : Int) (ha : a < 0) (hb : 0 ≤ b) : Int.tdiv a b ≤ 0 := by
  have h1 : a = -(-a) := by omega
  rw [h1, Int.neg_tdiv]
  have := Int.tdiv_nonneg (a := -a) (b := b) (by omega) hb
  omega

theorem actualTimespan_eq_clamped (params : Params) (last first : CBlockIndex) :
    actualTimespan params last first (effectiveTimespan params last.nHeight)
        (historyFactor params last.nHeight)
      = (clampedTimespan params last first : Int) := by
  have hq : Int.tdiv (effectiveTimespan params last.nHeight : Int) 4
      = (effectiveTimespan params last.nHeight : Int) / 4 :=
    Int.tdiv_eq_ediv (by omega) (by omega)
  have hF : (historyFactor params last.nHeight : Int) = 2 ∨
      (historyFactor params last.nHeight : Int) = 4 := by
    unfold historyFactor; split_ifs <;> simp
  have hraw : ∀ d : Int, (0 ≤ d ∧
        Int.tdiv d (historyFactor params last.nHeight : Int)
          = d / (historyFactor params last.nHeight : Int)) ∨
      (d < 0 ∧ Int.tdiv d (historyFactor params last.nHeight : Int) ≤ 0 ∧
        d / (historyFactor params last.nHeight : Int) < 0) := by
    intro d
    rcases lt_or_le d 0 with hd | hd
    · right
      refine ⟨hd, tdiv_of_neg_le _ _ hd (by omega), ?_⟩
      rcases hF with h | h <;> rw [h] <;> omega
    · left
      exact ⟨hd, Int.tdiv_eq_ediv hd (by omega)⟩
  unfold actualTimespan clampedTimespan measuredTimespan
  simp only [hq]
  generalize effectiveTimespan params last.nHeight = T at *
  generalize (historyFactor params last.nHeight : Int) = F at *
  have key := hraw (last.nTime - first.nTime)
  generalize last.nTime - first.nTime = d at *
  generalize Int.tdiv d F = r at *
  generalize d / F = c at *
  push_cast
  rw [Int.toNat_of_nonneg (by omega)]
  split_ifs <;> omega

theorem clampedTimespan_bounds (params : Params) (last first : CBlockIndex) :
    effectiveTimespan params last.nHeight / 4 ≤ clampedTimespan params last first ∧
      clampedTimespan params last first ≤ 4 * effectiveTimespan params last.nHeight := by
  unfold clampedTimespan
  generalize measuredTimespan params last first = m
  generalize effectiveTimespan params last.nHeight = T
  omega

theorem retargetValue_eq (params : Params) (last : CBlockIndex) (a T : Nat)
    (ha : a ≤ 4 * T)
    (hov : (arith_uint256.SetCompact last.nBits).value * 4 * T < 2 ^ 256) :
    retargetValue params last (a : Int) (T : Int) =
      min ((arith_uint256.SetCompact last.nBits).value * a / T)
        (UintToArith256 params.powLimit) := by
  have hlt : (arith_uint256.SetCompact last.nBits).value * a < 2 ^ 256 := by
    calc (arith_uint256.SetCompact last.nBits).value * a
        ≤ (arith_uint256.SetCompact last.nBits).value * (4 * T) := Nat.mul_le_mul_left _ ha
      _ = (arith_uint256.SetCompact last.nBits).value * 4 * T := by ring
      _ < 2 ^ 256 := hov
  simp only [retargetValue, arith_uint256.mul, Int.toNat_ofNat, Nat.mod_eq_of_lt hlt]
  split_ifs with h
  · exact (Nat.min_eq_right (Nat.le_of_lt h)).symm
  · exact (Nat.min_eq_left (Nat.le_of_not_lt h)).symm

theorem interval_ne_zero_of_boundary (params : Params) (h : Nat)
    (hb : (h + 1) % effectiveInterval params h = 0) : effectiveInterval params h ≠ 0 := by
  intro h0
  rw [h0, Nat.mod_zero] at hb
  omega

theorem V1_retarget (last first : CBlockIndex) (pprev rest : List CBlockIndex)
    (pblock : Option CBlockHeader) (params : Params)
    (hb : (last.nHeight + 1) % effectiveInterval params last.nHeight = 0)
    (hnr : params.fPowNoRetargeting = false)
    (hfirst : lookback params last pprev = first :: rest) :
    GetNextWorkRequired_V1 (last :: pprev) pblock params =
      .ok (arith_uint256.GetCompact
        (retargetValue params last
          (actualTimespan params last first (effectiveTimespan params last.nHeight)
            (historyFactor params last.nHeight))
          (effectiveTimespan params last.nHeight : Int))) := by
  have hI := interval_ne_zero_of_boundary params last.nHeight hb
  have hT := timespan_pos_of_interval params last.nHeight hI
  rw [V1_unfold last pprev pblock params hI, if_neg (not_not.mpr hb), hfirst]
  simp only [hnr, Bool.false_eq_true, if_false, retarget, Int.toNat_ofNat]
  rw [if_neg (by omega)]

theorem clampedTimespan_of_hundredfold (params : Params) (last first : CBlockIndex)
    (h100 : last.nTime - first.nTime = 100 * (effectiveTimespan params last.nHeight : Int)) :
    clampedTimespan params last first = 4 * effectiveTimespan params last.nHeight := by
  have hF : (historyFactor params last.nHeight : Int) = 2 ∨
      (historyFactor params last.nHeight : Int) = 4 := by
    unfold historyFactor; split_ifs <;> simp
  unfold clampedTimespan measuredTimespan
  rw [h100]
  generalize effectiveTimespan params last.nHeight = T
  rcases hF with h | h <;> rw [h] <;> split_ifs <;> omega

/-- C5: with `fPowAllowMinDifficultyBlocks` false and a non-zero effective
interval that does not divide the new height, `GetNextWorkRequired_V1` returns
the bits of the tip, whatever the header and the rest of the chain. -/
theorem C5_off_interval_keeps_bits (last : CBlockIndex) (pprev : List CBlockIndex)
    (pblock : Option CBlockHeader) (params : Params)
    (hmin : params.fPowAllowMinDifficultyBlocks = false)
    (hI : effectiveInterval params last.nHeight ≠ 0)
    (hoff : (last.nHeight + 1) % effectiveInterval params last.nHeight ≠ 0) :
    GetNextWorkRequired_V1 (last :: pprev) pblock params = .ok last.nBits := by
  rw [V1_unfold last pprev pblock params hI, if_pos hoff]
  simp [hmin]

/-- Witness of C5: the tip at height 2 under `sampleParams`, whose interval is
2. -/
theorem C5_off_interval_keeps_bits_witness :
    sampleParams.fPowAllowMinDifficultyBlocks = false ∧
      effectiveInterval sampleParams 2 ≠ 0 ∧
      (2 + 1) % effectiveInterval sampleParams 2 ≠ 0 ∧
      GetNextWorkRequired_V1 [⟨2, 1000, 0x1d00ffff⟩] none sampleParams = .ok 0x1d00ffff :=
  ⟨rfl, by decide, by decide,
    C5_off_interval_keeps_bits ⟨2, 1000, 0x1d00ffff⟩ [] none sampleParams rfl (by decide)
      (by decide)⟩

/-- Counterexample to C5 as stated: under `slowParams` the effective interval
is 0, so `1 mod interval` is not 0, and the call stops on the division of line
57 instead of returning the bits of the tip. -/
theorem C5_counterexample_zero_interval :
    slowParams.fPowAllowMinDifficultyBlocks = false ∧
      (0 + 1) % effectiveInterval slowParams 0 ≠ 0 ∧
      GetNextWorkRequired_V1 [⟨0, 1000, 0x1d00ffff⟩] none slowParams = .error .divByZero ∧
      GetNextWorkRequired_V1 [⟨0, 1000, 0x1d00ffff⟩] none slowParams ≠ .ok 0x1d00ffff := by
  decide

/-- C6: at an interval boundary, with `fPowNoRetargeting` false, the lookback
entry `first` found and `decode(tip.bits) * 4 * T` below `2^256`,
`GetNextWorkRequired_V1` returns the encoding of
`min (decode(tip.bits) * a / T) powLimit`, `a` being the measured timespan
clamped into `[T / 4, 4 * T]`. -/
theorem C6_retarget_formula (last first : CBlockIndex) (pprev rest : List CBlockIndex)
    (pblock : Option CBlockHeader) (params : Params)
    (hb : (last.nHeight + 1) % effectiveInterval params last.nHeight = 0)
    (hnr : params.fPowNoRetargeting = false)
    (hfirst : lookback params last pprev = first :: rest)
    (hov : (arith_uint256.SetCompact last.nBits).value * 4 *
      effectiveTimespan params last.nHeight < 2 ^ 256) :
    GetNextWorkRequired_V1 (last :: pprev) pblock params =
      .ok (arith_uint256.GetCompact
        (min ((arith_uint256.SetCompact last.nBits).value * clampedTimespan params last first
            / effectiveTimespan params last.nHeight)
          (UintToArith256 params.powLimit))) := by
  rw [V1_retarget last first pprev rest pblock params hb hnr hfirst, actualTimespan_eq_clamped,
    retargetValue_eq params last _ _ (clampedTimespan_bounds params last first).2 hov]

/-- Witness of C6: `fastChain` under `shortParams`, a tip at height 2 with an
interval of 3. -/
theorem C6_retarget_formula_witness :
    (2 + 1) % effectiveInterval shortParams 2 = 0 ∧
      lookback shortParams ⟨2, 1002, 0x1d00ffff⟩
        [⟨1, 1001, 0x1d00ffff⟩, ⟨0, 1000, 0x1d00ffff⟩] = [⟨0, 1000, 0x1d00ffff⟩] ∧
      GetNextWorkRequired_V1 fastChain none shortParams =
        .ok (arith_uint256.GetCompact
          (min ((arith_uint256.SetCompact 0x1d00ffff).value *
              clampedTimespan shortParams ⟨2, 1002, 0x1d00ffff⟩ ⟨0, 1000, 0x1d00ffff⟩
              / effectiveTimespan shortParams 2)
            (UintToArith256 shortParams.powLimit))) :=
  ⟨by decide, by decide,
    C6_retarget_formula ⟨2, 1002, 0x1d00ffff⟩ ⟨0, 1000, 0x1d00ffff⟩
      [⟨1, 1001, 0x1d00ffff⟩, ⟨0, 1000, 0x1d00ffff⟩] [] none shortParams
      (by decide) rfl (by decide) (by decide)⟩

/-- C7: in a retargeting call whose measured timespan is a hundred times the
effective timespan `T`, with `4 * decode(tip.bits)` at most `powLimit` and
`decode(tip.bits) * 4 * T` below `2^256`, the target that is encoded is
`4 * decode(tip.bits)`, on either side of `nCoinFix`. -/
theorem C7_hundredfold_timespan_gives_fourfold (last first : CBlockIndex)
    (pprev rest : List CBlockIndex) (pblock : Option CBlockHeader) (params : Params)
    (hb : (last.nHeight + 1) % effectiveInterval params last.nHeight = 0)
    (hnr : params.fPowNoRetargeting = false)
    (hfirst : lookback params last pprev = first :: rest)
    (h100 : last.nTime - first.nTime = 100 * (effectiveTimespan params last.nHeight : Int))
    (h4 : 4 * (arith_uint256.SetCompact last.nBits).value ≤ UintToArith256 params.powLimit)
    (hov : (arith_uint256.SetCompact last.nBits).value * 4 *
      effectiveTimespan params last.nHeight < 2 ^ 256) :
    GetNextWorkRequired_V1 (last :: pprev) pblock params =
      .ok (arith_uint256.GetCompact (4 * (arith_uint256.SetCompact last.nBits).value)) := by
  have hI := interval_ne_zero_of_boundary params last.nHeight hb
  have hT := timespan_pos_of_interval params last.nHeight hI
  rw [V1_retarget last first pprev rest pblock params hb hnr hfirst, actualTimespan_eq_clamped,
    retargetValue_eq params last _ _ (clampedTimespan_bounds params last first).2 hov,
    clampedTimespan_of_hundredfold params last first h100]
  have hq : (arith_uint256.SetCompact last.nBits).value *
      (4 * effectiveTimespan params last.nHeight) / effectiveTimespan params last.nHeight
      = 4 * (arith_uint256.SetCompact last.nBits).value := by
    rw [← Nat.mul_assoc, Nat.mul_div_cancel _ hT, Nat.mul_comm]
  rw [hq, Nat.min_eq_left h4]

/-- Witness of C7: `slowChain` under `shortParams`. -/
theorem C7_hundredfold_timespan_gives_fourfold_witness :
    ((10000 : Int) - 1000 = 100 * (effectiveTimespan shortParams 2 : Int)) ∧
      GetNextWorkRequired_V1 slowChain none shortParams =
        .ok (arith_uint256.GetCompact (4 * (arith_uint256.SetCompact 0x1d00ffff).value)) :=
  ⟨by decide,
    C7_hundredfold_timespan_gives_fourfold ⟨2, 10000, 0x1d00ffff⟩ ⟨0, 1000, 0x1d00ffff⟩
      [⟨1, 5000, 0x1d00ffff⟩, ⟨0, 1000, 0x1d00ffff⟩] [] none shortParams
      (by decide) rfl (by decide) (by decide) (by decide) (by decide)⟩

theorem limit_lt (params : Params) : UintToArith256 params.powLimit < 2 ^ 256 :=
  Nat.mod_lt _ (by norm_num)

theorem retargetValue_le (params : Params) (last : CBlockIndex) (a T : Int) :
    retargetValue params last a T ≤ UintToArith256 params.powLimit := by
  simp only [retargetValue]
  split_ifs with h
  · exact le_refl _
  · exact Nat.le_of_not_lt h

theorem V1_zero_interval (last : CBlockIndex) (pprev : List CBlockIndex)
    (pblock : Option CBlockHeader) (params : Params)
    (hI : effectiveInterval params last.nHeight = 0) :
    GetNextWorkRequired_V1 (last :: pprev) pblock params = .error .divByZero := by
  simp only [GetNextWorkRequired_V1, retargetSettings_eq, hI]
  split_ifs <;> first | rfl | simp_all

theorem V1_result_le (last : CBlockIndex) (pprev : List CBlockIndex)
    (pblock : Option CBlockHeader) (params : Params) (r : Nat)
    (hchain : ∀ e ∈ last :: pprev,
      (arith_uint256.SetCompact e.nBits).value ≤ UintToArith256 params.powLimit)
    (hr : GetNextWorkRequired_V1 (last :: pprev) pblock params = .ok r) :
    (arith_uint256.SetCompact r).value ≤ UintToArith256 params.powLimit := by
  have hlast := hchain last (List.mem_cons_self _ _)
  have hlimit := decode_encode_le _ (limit_lt params)
  by_cases hI : effectiveInterval params last.nHeight = 0
  · rw [V1_zero_interval last pprev pblock params hI] at hr
    cases hr
  · rw [V1_unfold last pprev pblock params hI] at hr
    by_cases hoff : (last.nHeight + 1) % effectiveInterval params last.nHeight ≠ 0
    · rw [if_pos hoff] at hr
      by_cases hmin : params.fPowAllowMinDifficultyBlocks = true
      · rw [if_pos hmin] at hr
        cases pblock with
        | none => cases hr
        | some blk =>
          simp only [] at hr
          split_ifs at hr
          · rw [← Except.ok.inj hr]; exact hlimit
          · rw [← Except.ok.inj hr]
            exact hchain _ (minDifficultyWalk_mem _ _ _ _)
      · rw [if_neg hmin] at hr
        rw [← Except.ok.inj hr]; exact hlast
    · rw [if_neg hoff] at hr
      cases hl : lookback params last pprev with
      | nil => rw [hl] at hr; cases hr
      | cons first rest =>
        rw [hl] at hr
        simp only [] at hr
        by_cases hnr : params.fPowNoRetargeting = true
        · rw [if_pos hnr] at hr
          rw [← Except.ok.inj hr]; exact hlast
        · rw [if_neg hnr] at hr
          simp only [retarget] at hr
          split_ifs at hr
          rw [← Except.ok.inj hr]
          exact le_trans
            (decode_encode_le _ (lt_of_le_of_lt (retargetValue_le _ _ _ _) (limit_lt params)))
            (retargetValue_le _ _ _ _)

theorem selector_cases (horizon : Bool → Nat → Int → Int → Bool) (last : CBlockIndex)
    (pprev : List CBlockIndex) (pblock : Option CBlockHeader) (params : Params) :
    GetNextWorkRequired horizon (last :: pprev) pblock params
        = .ok (arith_uint256.GetCompact (UintToArith256 params.powLimit)) ∨
      GetNextWorkRequired horizon (last :: pprev) pblock params
        = GetNextWorkRequired_V2 horizon (last :: pprev) params ∨
      GetNextWorkRequired horizon (last :: pprev) pblock params
        = GetNextWorkRequired_V1 (last :: pprev) pblock params := by
  simp only [GetNextWorkRequired]
  split_ifs <;> simp

/-- C2: when the constant limit of `GetNextWorkRequired_V2` decodes to at most
`powLimit` and every entry of the chain carries bits that decode to a
non-negative target of at most `powLimit`, the bits `GetNextWorkRequired`
returns decode to at most `powLimit`, whichever path is taken. -/
theorem C2_returned_target_within_powLimit (horizon : Bool → Nat → Int → Int → Bool)
    (pindexLast : List CBlockIndex) (pblock : Option CBlockHeader) (params : Params) (r : Nat)
    (hconst : (arith_uint256.SetCompact 504365055).value ≤ UintToArith256 params.powLimit)
    (hchain : ∀ e ∈ pindexLast, (arith_uint256.SetCompact e.nBits).fNegative = false ∧
      (arith_uint256.SetCompact e.nBits).value ≤ UintToArith256 params.powLimit)
    (hr : GetNextWorkRequired horizon pindexLast pblock params = .ok r) :
    (arith_uint256.SetCompact r).value ≤ UintToArith256 params.powLimit := by
  cases pindexLast with
  | nil => cases hr
  | cons last pprev =>
    rcases selector_cases horizon last pprev pblock params with h | h | h
    · rw [h] at hr
      rw [← Except.ok.inj hr]
      exact decode_encode_le _ (limit_lt params)
    · rw [h] at hr
      exact le_trans (V2_result_le horizon last pprev params r (fun e he => (hchain e he).1) hr)
        hconst
    · rw [h] at hr
      exact V1_result_le last pprev pblock params r (fun e he => (hchain e he).2) hr

/-- Witness of C2: `pacedChain` under `earlyShortParams`, where
`GetNextWorkRequired_V2` averages three entries and returns 486575672; the
test of line 183 is reached on the third pass only, which is the last one
whatever it answers. -/
theorem C2_returned_target_within_powLimit_witness :
    (∀ horizon, GetNextWorkRequired horizon pacedChain none earlyShortParams = .ok 486575672) ∧
      (arith_uint256.SetCompact 486575672).value ≤ UintToArith256 earlyShortParams.powLimit :=
  ⟨fun horizon =>
      (selector_horizon_idle horizon neverStop ⟨3, 1090, 0x1d00ffff⟩
        [⟨2, 1060, 0x1c7fff80⟩, ⟨1, 1030, 0x1d00ffff⟩, ⟨0, 1000, 0x1d00ffff⟩] none
        earlyShortParams (by decide)).trans (by decide),
    C2_returned_target_within_powLimit neverStop pacedChain none earlyShortParams 486575672
      (by decide) (by decide) (by decide)⟩

/-- Counterexample to C2 as stated. Off the interval `GetNextWorkRequired_V1`
hands back the bits of the tip, here `0x207fffff`, which decode above the
`powLimit` of `sampleParams`. On a short chain `GetNextWorkRequired_V2`
returns its own constant, which decodes above the `powLimit` of `tightParams`
although every entry of that chain is within it. On `minusChain`, whose bits
decode to a negative target of a magnitude within `powLimit`,
`GetNextWorkRequired_V2` scales a negative average by `144 / 90`, its upper
clamp lets the product through, and the bits returned, 513382808 whatever the
test of line 183 answers, decode above `powLimit`. -/
theorem C2_counterexample_passed_through_bits :
    (GetNextWorkRequired neverStop [⟨2, 1000, 0x207fffff⟩] none sampleParams = .ok 0x207fffff ∧
      ¬ (arith_uint256.SetCompact 0x207fffff).value ≤ UintToArith256 sampleParams.powLimit) ∧
    (GetNextWorkRequired neverStop [⟨1, 1000, 0x1d00ffff⟩, ⟨0, 900, 0x1d00ffff⟩] none tightParams
        = .ok 504365055 ∧
      (arith_uint256.SetCompact 0x1d00ffff).value ≤ UintToArith256 tightParams.powLimit ∧
      ¬ (arith_uint256.SetCompact 504365055).value ≤ UintToArith256 tightParams.powLimit) ∧
    ((∀ horizon, GetNextWorkRequired horizon minusChain none earlyShortParams = .ok 513382808) ∧
      (arith_uint256.SetCompact 0x1e8fffff).value ≤ UintToArith256 earlyShortParams.powLimit ∧
      (arith_uint256.SetCompact 504365055).value ≤ UintToArith256 earlyShortParams.powLimit ∧
      ¬ (arith_uint256.SetCompact 513382808).value ≤ UintToArith256 earlyShortParams.powLimit) :=
  ⟨by decide, by decide,
    fun horizon =>
      (selector_horizon_idle horizon neverStop ⟨3, 1216, 0x1e8fffff⟩
        [⟨2, 1144, 0x1e8fffff⟩, ⟨1, 1072, 0x1e8fffff⟩, ⟨0, 1000, 0x1e8fffff⟩] none
        earlyShortParams (by decide)).trans (by decide),
    by decide, by decide, by decide⟩

/-! ## The codec: an encoded target decodes to an admissible one -/

theorem compactWord_of_parts (m size : Nat) (hm : m < 2 ^ 23) (hsize : size ≤ 255) :
    compactWord ((m + size * 2 ^ 24) % 2 ^ 32) =
        ((if size ≤ 3 then m / 2 ^ (8 * (3 - size)) else m),
          (if size ≤ 3 then m / 2 ^ (8 * (3 - size)) else m * 2 ^ (8 * (size - 3)))) ∧
      ((m + size * 2 ^ 24) % 2 ^ 32) / 2 ^ 23 % 2 = 0 ∧
      ((m + size * 2 ^ 24) % 2 ^ 32) / 2 ^ 24 = size := by
  have e1 : (m + size * 2 ^ 24) % 2 ^ 32 = m + size * 2 ^ 24 := by
    apply Nat.mod_eq_of_lt
    norm_num at hm ⊢
    omega
  have e2 : (m + size * 2 ^ 24) / 2 ^ 24 = size := by
    norm_num at hm ⊢
    omega
  have e3 : (m + size * 2 ^ 24) % 2 ^ 23 = m := by
    norm_num at hm ⊢
    omega
  have e4 : (m + size * 2 ^ 24) / 2 ^ 23 % 2 = 0 := by
    norm_num at hm ⊢
    omega
  refine ⟨?_, by rw [e1]; exact e4, by rw [e1]; exact e2⟩
  simp only [compactWord, e1, e2, e3]
  split_ifs <;> rfl

theorem encode_parts (x : Nat) (hx : x < 2 ^ 256) :
    ∃ m size, compactOfMagnitude x = m + size * 2 ^ 24 ∧ m < 2 ^ 23 ∧ size ≤ 33 ∧
      (size = 33 → m < 2 ^ 16) ∧
      (if size ≤ 3 then m / 2 ^ (8 * (3 - size)) else m * 2 ^ (8 * (size - 3))) ≤ x ∧
      (0 < x → 0 < (if size ≤ 3 then m / 2 ^ (8 * (3 - size)) else m * 2 ^ (8 * (size - 3)))) := by
  have hn := byteLen_le x hx
  have hc := leading_lt x
  have hlow := (byteLen_spec x).2
  unfold compactOfMagnitude
  simp only []
  generalize hcdef : (if byteLen x ≤ 3 then x * 2 ^ (8 * (3 - byteLen x))
    else x / 2 ^ (8 * (byteLen x - 3))) = c at hc
  generalize byteLen x = n at hn hcdef hlow
  by_cases hbit : c / 2 ^ 23 % 2 = 1
  · rw [if_pos hbit]
    have hm : c / 2 ^ 8 < 2 ^ 16 := by
      norm_num at hc ⊢
      omega
    have hmpos : 0 < c / 2 ^ 8 := by
      norm_num at hc hbit ⊢
      omega
    refine ⟨c / 2 ^ 8, n + 1, rfl, lt_trans hm (by norm_num), by omega, fun _ => hm, ?_⟩
    by_cases h3 : n ≤ 3
    · rw [if_pos h3] at hcdef
      by_cases h2 : n + 1 ≤ 3
      · rw [if_pos h2]
        subst hcdef
        have e : 2 ^ (8 * (3 - n)) = 2 ^ 8 * 2 ^ (8 * (3 - (n + 1))) := by
          rw [← Nat.pow_add]; congr 1; omega
        rw [Nat.div_div_eq_div_mul, ← e, Nat.mul_div_cancel _ (Nat.pow_pos (by norm_num))]
        exact ⟨le_refl _, fun h => h⟩
      · rw [if_neg h2]
        exact ⟨by
          have hn3 : n = 3 := by omega
          subst hn3
          subst hcdef
          simp only [Nat.sub_self, Nat.mul_zero, Nat.pow_zero, Nat.mul_one]
          have : 3 + 1 - 3 = 1 := rfl
          rw [this]
          exact Nat.div_mul_le_self x (2 ^ (8 * 1)),
          fun _ => Nat.mul_pos hmpos (Nat.pow_pos (by norm_num))⟩
    · rw [if_neg h3] at hcdef
      rw [if_neg (by omega)]
      refine ⟨?_, fun _ => Nat.mul_pos hmpos (Nat.pow_pos (by norm_num))⟩
      subst hcdef
      have e : 2 ^ (8 * (n + 1 - 3)) = 2 ^ (8 * (n - 3)) * 2 ^ 8 := by
        rw [← Nat.pow_add]; congr 1; omega
      rw [Nat.div_div_eq_div_mul, e]
      exact Nat.div_mul_le_self x _
  · rw [if_neg hbit]
    have hm : c < 2 ^ 23 := by
      norm_num at hc hbit ⊢
      omega
    refine ⟨c, n, rfl, hm, by omega, fun h => by omega, ?_⟩
    by_cases h3 : n ≤ 3
    · rw [if_pos h3] at hcdef
      rw [if_pos h3]
      subst hcdef
      rw [Nat.mul_div_cancel _ (Nat.pow_pos (by norm_num))]
      exact ⟨le_refl _, fun h => h⟩
    · rw [if_neg h3] at hcdef
      rw [if_neg h3]
      subst hcdef
      refine ⟨Nat.div_mul_le_self x _, fun hpos => ?_⟩
      apply Nat.mul_pos _ (Nat.pow_pos (by norm_num))
      apply Nat.div_pos _ (Nat.pow_pos (by norm_num))
      have h1 := hlow (by omega)
      rw [pow_eight_mul]
      calc 256 ^ (n - 3) ≤ 256 ^ (n - 1) := Nat.pow_le_pow_right (by norm_num) (by omega)
        _ ≤ x := h1

theorem decode_encode_admissible (x : Nat) (hx : x < 2 ^ 256) (hpos : 0 < x) :
    (arith_uint256.SetCompact (arith_uint256.GetCompact x)).fNegative = false ∧
      (arith_uint256.SetCompact (arith_uint256.GetCompact x)).fOverflow = false ∧
      0 < (arith_uint256.SetCompact (arith_uint256.GetCompact x)).value ∧
      (arith_uint256.SetCompact (arith_uint256.GetCompact x)).value ≤ x := by
  obtain ⟨m, size, hform, hm, hsize, h33, hle, hp⟩ := encode_parts x hx
  obtain ⟨hw, hbit, hsz⟩ := compactWord_of_parts m size hm (by omega)
  have hmag : (if size ≤ 3 then m / 2 ^ (8 * (3 - size)) else m * 2 ^ (8 * (size - 3))) % 2 ^ 256
      = (if size ≤ 3 then m / 2 ^ (8 * (3 - size)) else m * 2 ^ (8 * (size - 3))) :=
    Nat.mod_eq_of_lt (lt_of_le_of_lt hle hx)
  unfold arith_uint256.GetCompact
  rw [hform]
  simp only [arith_uint256.SetCompact, hw, hbit, hsz, hmag]
  refine ⟨by simp, ?_, hp hpos, hle⟩
  by_cases h3 : size ≤ 3
  · simp only [if_pos h3]
    have a1 : ¬ size > 34 := by omega
    have a2 : ¬ size > 33 := by omega
    have a3 : ¬ size > 32 := by omega
    simp [a1, a2, a3]
  · simp only [if_neg h3]
    have a1 : ¬ size > 34 := by omega
    have a2 : ¬ size > 33 := by omega
    by_cases a3 : size > 32
    · have : ¬ m > 0xffff := by
        have := h33 (by omega)
        norm_num at this ⊢
        omega
      simp [a1, a2, this]
    · simp [a1, a2, a3]

/-- C11: for a target `t` with `0 < t ≤ powLimit`, `CheckProofOfWork` on the
encoding of `t` accepts exactly the hashes that are at most the decoding of
that encoding, which is non-zero and at most `t`; so it accepts only hashes
that are at most `t`. -/
theorem C11_check_against_encoded_target (hash target : Nat) (params : Params)
    (hpos : 0 < target) (hle : target ≤ UintToArith256 params.powLimit) :
    (CheckProofOfWork hash (arith_uint256.GetCompact target) params = true ↔
        UintToArith256 hash ≤
          (arith_uint256.SetCompact (arith_uint256.GetCompact target)).value) ∧
      0 < (arith_uint256.SetCompact (arith_uint256.GetCompact target)).value ∧
      (arith_uint256.SetCompact (arith_uint256.GetCompact target)).value ≤ target ∧
      (CheckProofOfWork hash (arith_uint256.GetCompact target) params = true →
        UintToArith256 hash ≤ target) := by
  have hx : target < 2 ^ 256 := lt_of_le_of_lt hle (limit_lt params)
  obtain ⟨hneg, hov, hp, hd⟩ := decode_encode_admissible target hx hpos
  have hiff : CheckProofOfWork hash (arith_uint256.GetCompact target) params = true ↔
      UintToArith256 hash ≤
        (arith_uint256.SetCompact (arith_uint256.GetCompact target)).value := by
    have hz : ¬ (arith_uint256.SetCompact (arith_uint256.GetCompact target)).value = 0 := by
      omega
    have hl : ¬ (arith_uint256.SetCompact (arith_uint256.GetCompact target)).value
        > UintToArith256 params.powLimit := by omega
    simp only [CheckProofOfWork, hneg, hov, hz, hl, decide_False, Bool.or_self,
      Bool.false_eq_true, if_false]
    split_ifs with hh
    · simp only [Bool.false_eq_true, false_iff]; omega
    · simp only [true_iff]; omega
  exact ⟨hiff, hp, hd, fun h => le_trans (hiff.mp h) hd⟩

/-- Witness of C11: the target `0x12345678` under `sampleParams` and a hash
below its decoding `0x12345600`. -/
theorem C11_check_against_encoded_target_witness :
    CheckProofOfWork 0x12345000 (arith_uint256.GetCompact 0x12345678) sampleParams = true ∧
      UintToArith256 0x12345000 ≤ 0x12345678 :=
  ⟨by decide,
    (C11_check_against_encoded_target 0x12345000 0x12345678 sampleParams (by decide)
      (by decide)).2.2.2 (by decide)⟩

/-- Counterexample to C11 as stated: the target `0x12345678` is within the
`powLimit` of `sampleParams` and the hash `0x12345678` is at most the target,
yet `CheckProofOfWork` rejects it, because the encoding keeps three bytes and
decodes to `0x12345600`. -/
theorem C11_counterexample_lost_precision :
    0 < (0x12345678 : Nat) ∧ 0x12345678 ≤ UintToArith256 sampleParams.powLimit ∧
      UintToArith256 0x12345678 ≤ 0x12345678 ∧
      (arith_uint256.SetCompact (arith_uint256.GetCompact 0x12345678)).value = 0x12345600 ∧
      CheckProofOfWork 0x12345678 (arith_uint256.GetCompact 0x12345678) sampleParams = false := by
  decide

/-! ## The selector, `fPowNoRetargeting` and the minimum-difficulty walk -/

theorem selector_V1 (horizon : Bool → Nat → Int → Int → Bool) (last : CBlockIndex)
    (pprev : List CBlockIndex) (pblock : Option CBlockHeader) (params : Params)
    (h3 : (last.nHeight : Int) + 1 ≠ params.nHardForkThree)
    (hV1 : (last.nHeight : Int) < params.nHardForkTwo ∨
      (params.nHardForkThree ≤ (last.nHeight : Int) + 1 ∧
        (last.nHeight : Int) + 1 ≤ params.nHardForkThree + 10)) :
    GetNextWorkRequired horizon (last :: pprev) pblock params
      = GetNextWorkRequired_V1 (last :: pprev) pblock params := by
  simp only [GetNextWorkRequired, if_neg h3]
  by_cases hg : (last.nHeight : Int) + 1 ≥ params.nHardForkThree ∧
      (last.nHeight : Int) + 1 ≤ params.nHardForkThree + 10
  · simp [hg]
  · have h2 : ¬ (last.nHeight : Int) ≥ params.nHardForkTwo := by
      rcases hV1 with h | h
      · omega
      · exact absurd ⟨h.1, h.2⟩ hg
    simp [hg, h2]

theorem selector_V2 (horizon : Bool → Nat → Int → Int → Bool) (last : CBlockIndex)
    (pprev : List CBlockIndex) (pblock : Option CBlockHeader) (params : Params)
    (h3 : (last.nHeight : Int) + 1 ≠ params.nHardForkThree)
    (h2 : (last.nHeight : Int) ≥ params.nHardForkTwo)
    (hg : ¬ (params.nHardForkThree ≤ (last.nHeight : Int) + 1 ∧
        (last.nHeight : Int) + 1 ≤ params.nHardForkThree + 10)) :
    GetNextWorkRequired horizon (last :: pprev) pblock params
      = GetNextWorkRequired_V2 horizon (last :: pprev) params := by
  simp only [GetNextWorkRequired, if_neg h3]
  have hg2 : ¬ ((last.nHeight : Int) + 1 ≥ params.nHardForkThree ∧
      (last.nHeight : Int) + 1 ≤ params.nHardForkThree + 10) := hg
  simp [hg2, h2]

/-- C12: with `fPowNoRetargeting` set, `fPowAllowMinDifficultyBlocks` false and
a non-zero effective interval, a tip away from the reset height that the
selector sends to `GetNextWorkRequired_V1` gets its own bits back, off the
interval and, when the lookback entry exists, at an interval boundary. -/
theorem C12_frozen_under_V1 (horizon : Bool → Nat → Int → Int → Bool) (last : CBlockIndex)
    (pprev : List CBlockIndex) (pblock : Option CBlockHeader) (params : Params)
    (hnr : params.fPowNoRetargeting = true)
    (hmin : params.fPowAllowMinDifficultyBlocks = false)
    (h3 : (last.nHeight : Int) + 1 ≠ params.nHardForkThree)
    (hV1 : (last.nHeight : Int) < params.nHardForkTwo ∨
      (params.nHardForkThree ≤ (last.nHeight : Int) + 1 ∧
        (last.nHeight : Int) + 1 ≤ params.nHardForkThree + 10))
    (hI : effectiveInterval params last.nHeight ≠ 0)
    (hfirst : (last.nHeight + 1) % effectiveInterval params last.nHeight = 0 →
      lookback params last pprev ≠ []) :
    GetNextWorkRequired horizon (last :: pprev) pblock params = .ok last.nBits := by
  rw [selector_V1 horizon last pprev pblock params h3 hV1,
    V1_unfold last pprev pblock params hI]
  by_cases hoff : (last.nHeight + 1) % effectiveInterval params last.nHeight ≠ 0
  · rw [if_pos hoff]
    simp [hmin]
  · rw [if_neg hoff]
    cases hl : lookback params last pprev with
    | nil => exact absurd hl (hfirst (not_not.mp hoff))
    | cons first rest => simp [hnr]

/-- Witness of C12: `fastChain` under `shortParams` with `fPowNoRetargeting`
set, a tip at an interval boundary whose lookback entry is the genesis block. -/
theorem C12_frozen_under_V1_witness :
    GetNextWorkRequired neverStop fastChain none
        { shortParams with fPowNoRetargeting := true } = .ok 0x1d00ffff :=
  C12_frozen_under_V1 neverStop ⟨2, 1002, 0x1d00ffff⟩
    [⟨1, 1001, 0x1d00ffff⟩, ⟨0, 1000, 0x1d00ffff⟩] none
    { shortParams with fPowNoRetargeting := true } rfl rfl (by decide) (Or.inl (by decide))
    (by decide) (fun _ => by decide)

/-- Counterexample to C12 as stated. Under `frozenParams` a tip at height 1 is
handed to `GetNextWorkRequired_V2`, which never reads `fPowNoRetargeting`: it
processes the tip, scales its target by `5 / 1800` and returns 469808650
whatever the test of line 183 answers, not the bits of the tip. Under
`frozenDeepParams` a tip at height 1, at an interval boundary, needs a
lookback of 8 blocks and the call stops at the `assert` of line 89, which comes
before the test of line 91. Under `frozenSlowParams` the interval is 0 and the
call stops on the division of line 57. -/
theorem C12_counterexample_not_frozen :
    (frozenParams.fPowNoRetargeting = true ∧
      frozenParams.fPowAllowMinDifficultyBlocks = false ∧
      ((1 : Nat) : Int) + 1 ≠ frozenParams.nHardForkThree ∧
      (∀ horizon, GetNextWorkRequired horizon pairChain none frozenParams = .ok 469808650) ∧
      (∀ horizon, GetNextWorkRequired horizon pairChain none frozenParams ≠ .ok 0x1d00ffff)) ∧
    (frozenDeepParams.fPowNoRetargeting = true ∧
      frozenDeepParams.fPowAllowMinDifficultyBlocks = false ∧
      ((1 : Nat) : Int) + 1 ≠ frozenDeepParams.nHardForkThree ∧
      GetNextWorkRequired neverStop [⟨1, 1100, 0x1d00ffff⟩, ⟨0, 1000, 0x1d00ffff⟩] none
        frozenDeepParams = .error .assertFailed) ∧
    (frozenSlowParams.fPowNoRetargeting = true ∧
      frozenSlowParams.fPowAllowMinDifficultyBlocks = false ∧
      ((0 : Nat) : Int) + 1 ≠ frozenSlowParams.nHardForkThree ∧
      GetNextWorkRequired neverStop [⟨0, 1000, 0x1d00ffff⟩] none frozenSlowParams
        = .error .divByZero) :=
  ⟨⟨by decide, by decide, by decide,
      fun horizon =>
        (selector_horizon_idle horizon neverStop ⟨1, 1001, 0x1d00ffff⟩
          [⟨0, 1000, 0x1d00ffff⟩] none frozenParams (by decide)).trans (by decide),
      fun horizon =>
        (selector_horizon_idle horizon neverStop ⟨1, 1001, 0x1d00ffff⟩
          [⟨0, 1000, 0x1d00ffff⟩] none frozenParams (by decide)).trans_ne (by decide)⟩,
    by decide, by decide⟩

theorem minDifficultyWalk_spec (interval limit : Nat) :
    ∀ (rest0 : List CBlockIndex) (e0 : CBlockIndex),
      ∃ skipped e rest, e0 :: rest0 = skipped ++ e :: rest ∧
        (∀ x ∈ skipped, x.nHeight % interval ≠ 0 ∧ x.nBits = limit) ∧
        (rest = [] ∨ e.nHeight % interval = 0 ∨ e.nBits ≠ limit) ∧
        minDifficultyWalk (interval : Int) limit e0 rest0 = e := by
  intro rest0
  induction rest0 with
  | nil =>
    intro e0
    exact ⟨[], e0, [], rfl, by simp, Or.inl rfl, rfl⟩
  | cons p rest ih =>
    intro e0
    have hm : Int.tmod (e0.nHeight : Int) (interval : Int) = ((e0.nHeight % interval : Nat) : Int) :=
      (Int.ofNat_tmod _ _).symm
    by_cases hc : e0.nHeight % interval ≠ 0 ∧ e0.nBits = limit
    · obtain ⟨skipped, e, rest', heq, hsk, hstop, hw⟩ := ih p
      refine ⟨e0 :: skipped, e, rest', by rw [heq]; rfl, ?_, hstop, ?_⟩
      · intro x hx
        rcases List.mem_cons.mp hx with h | h
        · rw [h]; exact hc
        · exact hsk x h
      · have hc2 : Int.tmod (e0.nHeight : Int) (interval : Int) ≠ 0 ∧ e0.nBits = limit := by
          rw [hm]
          exact ⟨by exact_mod_cast hc.1, hc.2⟩
        rw [minDifficultyWalk, if_pos hc2]
        exact hw
    · refine ⟨[], e0, p :: rest, rfl, by simp, ?_, ?_⟩
      · right
        by_cases h1 : e0.nHeight % interval = 0
        · exact Or.inl h1
        · exact Or.inr (fun h2 => hc ⟨h1, h2⟩)
      · have hc2 : ¬ (Int.tmod (e0.nHeight : Int) (interval : Int) ≠ 0 ∧ e0.nBits = limit) := by
          rw [hm]
          intro h
          exact hc ⟨by exact_mod_cast h.1, h.2⟩
        rw [minDifficultyWalk, if_neg hc2]

/-- C13: with `fPowAllowMinDifficultyBlocks` set, a non-zero effective interval
that does not divide the new height, and a header time of at most the tip time
plus twice the spacing, `GetNextWorkRequired_V1` returns the bits of the
nearest entry `e`, from the tip back, that has no predecessor, or is at a
multiple of the interval, or does not carry the encoding of `powLimit`; every
entry before `e` carries that encoding. -/
theorem C13_min_difficulty_walk (last : CBlockIndex) (pprev : List CBlockIndex)
    (blk : CBlockHeader) (params : Params)
    (hmin : params.fPowAllowMinDifficultyBlocks = true)
    (hI : effectiveInterval params last.nHeight ≠ 0)
    (hoff : (last.nHeight + 1) % effectiveInterval params last.nHeight ≠ 0)
    (htime : blk.nTime ≤ last.nTime + 2 * (params.nPowTargetSpacing : Int)) :
    ∃ skipped e rest, last :: pprev = skipped ++ e :: rest ∧
      (∀ x ∈ skipped, x.nHeight % effectiveInterval params last.nHeight ≠ 0 ∧
        x.nBits = arith_uint256.GetCompact (UintToArith256 params.powLimit)) ∧
      (rest = [] ∨ e.nHeight % effectiveInterval params last.nHeight = 0 ∨
        e.nBits ≠ arith_uint256.GetCompact (UintToArith256 params.powLimit)) ∧
      GetNextWorkRequired_V1 (last :: pprev) (some blk) params = .ok e.nBits := by
  obtain ⟨skipped, e, rest, heq, hsk, hstop, hw⟩ :=
    minDifficultyWalk_spec (effectiveInterval params last.nHeight)
      (arith_uint256.GetCompact (UintToArith256 params.powLimit)) pprev last
  refine ⟨skipped, e, rest, heq, hsk, hstop, ?_⟩
  rw [V1_unfold last pprev (some blk) params hI, if_pos hoff, if_pos hmin]
  simp only []
  rw [if_neg (by omega), hw]

/-- Witness of C13: `lenientChain` under `lenientParams`, where the walk skips
the two entries at the limit bits and returns the harder bits below them. -/
theorem C13_min_difficulty_walk_witness :
    GetNextWorkRequired_V1 lenientChain (some ⟨5050⟩) lenientParams = .ok 0x1d00ffff ∧
      ∃ skipped e rest, lenientChain = skipped ++ e :: rest ∧
        (∀ x ∈ skipped, x.nHeight % effectiveInterval lenientParams 8 ≠ 0 ∧
          x.nBits = arith_uint256.GetCompact (UintToArith256 lenientParams.powLimit)) ∧
        (rest = [] ∨ e.nHeight % effectiveInterval lenientParams 8 = 0 ∨
          e.nBits ≠ arith_uint256.GetCompact (UintToArith256 lenientParams.powLimit)) ∧
        GetNextWorkRequired_V1 lenientChain (some ⟨5050⟩) lenientParams = .ok e.nBits :=
  ⟨by decide,
    C13_min_difficulty_walk ⟨8, 5000, 0x1e0fffff⟩
      [⟨7, 4900, 0x1e0fffff⟩, ⟨6, 4870, 0x1d00ffff⟩, ⟨5, 4840, 0x1d00ffff⟩,
        ⟨4, 4810, 0x1d00ffff⟩, ⟨3, 4780, 0x1d00ffff⟩, ⟨2, 4750, 0x1d00ffff⟩,
        ⟨1, 4720, 0x1d00ffff⟩, ⟨0, 4690, 0x1d00ffff⟩]
      ⟨5050⟩ lenientParams rfl (by decide) (by decide) (by decide)⟩

/-- Counterexample to C13 as stated: under `lenientSlowParams` the effective
interval is 0, so `1 mod interval` is not 0, the header time is within twice
the spacing of the tip, and the call stops on the division of line 57 instead
of returning the bits of an entry. -/
theorem C13_counterexample_zero_interval :
    lenientSlowParams.fPowAllowMinDifficultyBlocks = true ∧
      (0 + 1) % effectiveInterval lenientSlowParams 0 ≠ 0 ∧
      (1000 : Int) ≤ 1000 + 2 * (lenientSlowParams.nPowTargetSpacing : Int) ∧
      GetNextWorkRequired_V1 [⟨0, 1000, 0x1d00ffff⟩] (some ⟨1000⟩) lenientSlowParams
        = .error .divByZero := by
  decide

/-! ## The grace period of the selector -/

/-- C14: when `nHardForkThree + 10 ≤ nHardForkTwo`, the grace-period step of
the selector has no effect: `GetNextWorkRequired` and the selector without that
step return the same value for every tip and header. -/
theorem C14_grace_without_effect (horizon : Bool → Nat → Int → Int → Bool)
    (pindexLast : List CBlockIndex) (pblock : Option CBlockHeader) (params : Params)
    (hord : params.nHardForkThree + 10 ≤ params.nHardForkTwo) :
    GetNextWorkRequired horizon pindexLast pblock params
      = GetNextWorkRequired_noGrace horizon pindexLast pblock params := by
  cases pindexLast with
  | nil => rfl
  | cons last pprev =>
    simp only [GetNextWorkRequired, GetNextWorkRequired_noGrace]
    by_cases h3 : (last.nHeight : Int) + 1 = params.nHardForkThree
    · rw [if_pos h3, if_pos h3]
    · rw [if_neg h3, if_neg h3]
      by_cases hg : (last.nHeight : Int) + 1 ≥ params.nHardForkThree ∧
          (last.nHeight : Int) + 1 ≤ params.nHardForkThree + 10
      · have h2 : ¬ (last.nHeight : Int) ≥ params.nHardForkTwo := by omega
        simp [hg, h2]
      · simp [hg]

/-- Witness of C14: the sample configuration with `nHardForkTwo` moved to 410,
and a tip inside the grace window. -/
theorem C14_grace_without_effect_witness :
    GetNextWorkRequired neverStop [⟨402, 1000, 0x1d00ffff⟩] none
        { sampleParams with nHardForkTwo := 410 }
      = GetNextWorkRequired_noGrace neverStop [⟨402, 1000, 0x1d00ffff⟩] none
        { sampleParams with nHardForkTwo := 410 } :=
  C14_grace_without_effect neverStop [⟨402, 1000, 0x1d00ffff⟩] none
    { sampleParams with nHardForkTwo := 410 } (by decide)

/-- Counterexample to C14 as stated: `sampleParams` has `nHardForkTwo = 200`
below `nHardForkThree = 400`. For the tip at height 400 the new height 401 is
in the grace window, so `GetNextWorkRequired` calls `GetNextWorkRequired_V1`
and returns the bits of the tip, while the selector without the grace step
calls `GetNextWorkRequired_V2` and returns other bits. -/
theorem C14_counterexample_grace_takes_effect :
    sampleParams.nHardForkTwo < sampleParams.nHardForkThree ∧
      GetNextWorkRequired neverStop [⟨400, 1000, 0x1d00ffff⟩] none sampleParams
        = .ok 0x1d00ffff ∧
      GetNextWorkRequired_noGrace neverStop [⟨400, 1000, 0x1d00ffff⟩] none sampleParams
        = GetNextWorkRequired_V2 neverStop [⟨400, 1000, 0x1d00ffff⟩] sampleParams ∧
      GetNextWorkRequired_noGrace neverStop [⟨400, 1000, 0x1d00ffff⟩] none sampleParams
        ≠ .ok 0x1d00ffff := by
  decide

/-! ## The width of the retarget multiplication -/

/-- C15: in a retargeting call of `GetNextWorkRequired_V1` under a
configuration with `powLimit * 4 * T` below `2^256`, a tip whose bits decode to
at most `powLimit` gives a product `decode(tip.bits) * actualTimespan` below
`2^256`, the 256-bit multiplication returns that product, and the bits returned
encode the target computed with unbounded integers. -/
theorem C15_retarget_without_wraparound (last first : CBlockIndex)
    (pprev rest : List CBlockIndex) (pblock : Option CBlockHeader) (params : Params)
    (hb : (last.nHeight + 1) % effectiveInterval params last.nHeight = 0)
    (hnr : params.fPowNoRetargeting = false)
    (hfirst : lookback params last pprev = first :: rest)
    (hadm : (arith_uint256.SetCompact last.nBits).value ≤ UintToArith256 params.powLimit)
    (hcfg : UintToArith256 params.powLimit * 4 * effectiveTimespan params last.nHeight
      < 2 ^ 256) :
    (arith_uint256.SetCompact last.nBits).value * clampedTimespan params last first < 2 ^ 256 ∧
      arith_uint256.mul (arith_uint256.SetCompact last.nBits).value
          (actualTimespan params last first (effectiveTimespan params last.nHeight)
            (historyFactor params last.nHeight))
        = (arith_uint256.SetCompact last.nBits).value * clampedTimespan params last first ∧
      GetNextWorkRequired_V1 (last :: pprev) pblock params =
        .ok (arith_uint256.GetCompact
          (min ((arith_uint256.SetCompact last.nBits).value * clampedTimespan params last first
              / effectiveTimespan params last.nHeight)
            (UintToArith256 params.powLimit))) := by
  have hov : (arith_uint256.SetCompact last.nBits).value * 4 *
      effectiveTimespan params last.nHeight < 2 ^ 256 :=
    lt_of_le_of_lt
      (Nat.mul_le_mul_right _ (Nat.mul_le_mul_right 4 hadm)) hcfg
  have hlt : (arith_uint256.SetCompact last.nBits).value * clampedTimespan params last first
      < 2 ^ 256 := by
    calc (arith_uint256.SetCompact last.nBits).value * clampedTimespan params last first
        ≤ (arith_uint256.SetCompact last.nBits).value *
            (4 * effectiveTimespan params last.nHeight) :=
          Nat.mul_le_mul_left _ (clampedTimespan_bounds params last first).2
      _ = (arith_uint256.SetCompact last.nBits).value * 4 *
            effectiveTimespan params last.nHeight := by ring
      _ < 2 ^ 256 := hov
  refine ⟨hlt, ?_, ?_⟩
  · rw [actualTimespan_eq_clamped]
    simp only [arith_uint256.mul, Int.toNat_ofNat, Nat.mod_eq_of_lt hlt]
  · rw [V1_retarget last first pprev rest pblock params hb hnr hfirst,
      actualTimespan_eq_clamped,
      retargetValue_eq params last _ _ (clampedTimespan_bounds params last first).2 hov]

/-- Witness of C15: `slowChain` under `shortParams`. -/
theorem C15_retarget_without_wraparound_witness :
    (arith_uint256.SetCompact 0x1d00ffff).value
        * clampedTimespan shortParams ⟨2, 10000, 0x1d00ffff⟩ ⟨0, 1000, 0x1d00ffff⟩ < 2 ^ 256 :=
  (C15_retarget_without_wraparound ⟨2, 10000, 0x1d00ffff⟩ ⟨0, 1000, 0x1d00ffff⟩
    [⟨1, 5000, 0x1d00ffff⟩, ⟨0, 1000, 0x1d00ffff⟩] [] none shortParams
    (by decide) rfl (by decide) (by decide) (by decide)).1

/-- Counterexample to C15 as stated: under `wideParams` the bits of the tip of
`wideChain` decode to `0x7fffff * 2^232`, which is within `powLimit`; the
clamped timespan is 14400 and the product is above `2^256`, so line 110 keeps
only its low 256 bits and the bits returned are not those of the target
computed with unbounded integers. -/
theorem C15_counterexample_product_wraps :
    (arith_uint256.SetCompact 0x207fffff).value ≤ UintToArith256 wideParams.powLimit ∧
      (1 + 1) % effectiveInterval wideParams 1 = 0 ∧
      lookback wideParams ⟨1, 15400, 0x207fffff⟩ [⟨0, 1000, 0x207fffff⟩]
        = [⟨0, 1000, 0x207fffff⟩] ∧
      clampedTimespan wideParams ⟨1, 15400, 0x207fffff⟩ ⟨0, 1000, 0x207fffff⟩ = 14400 ∧
      ¬ (arith_uint256.SetCompact 0x207fffff).value * 14400 < 2 ^ 256 ∧
      arith_uint256.mul (arith_uint256.SetCompact 0x207fffff).value 14400
        ≠ (arith_uint256.SetCompact 0x207fffff).value * 14400 ∧
      GetNextWorkRequired_V1 wideChain none wideParams ≠
        .ok (arith_uint256.GetCompact
          (min ((arith_uint256.SetCompact 0x207fffff).value * 14400 / 3600)
            (UintToArith256 wideParams.powLimit))) := by
  decide

/-! ## The lookback of `GetNextWorkRequired_V1` on a linked chain -/

theorem linked_length : ∀ (rest : List CBlockIndex) (e : CBlockIndex),
    linked (e :: rest) = true → rest.length = e.nHeight := by
  intro rest
  induction rest with
  | nil =>
    intro e h
    simp only [linked, decide_eq_true_eq] at h
    simp [h]
  | cons p rest ih =>
    intro e h
    simp only [linked, Bool.and_eq_true, decide_eq_true_eq] at h
    have := ih p h.2
    simp only [List.length_cons]
    omega

theorem walkBack_ne_nil : ∀ (n : Nat) (l : List CBlockIndex),
    walkBack n l ≠ [] ↔ n < l.length := by
  intro n
  induction n with
  | zero =>
    intro l
    cases l <;> simp [walkBack]
  | succ k ih =>
    intro l
    cases l with
    | nil => simp [walkBack]
    | cons e rest =>
      simp only [walkBack, List.length_cons]
      rw [ih rest]
      omega

theorem lookback_found_iff (params : Params) (last : CBlockIndex) (pprev : List CBlockIndex)
    (hl : linked (last :: pprev) = true)
    (hI : 1 ≤ effectiveInterval params last.nHeight)
    (hb : (last.nHeight + 1) % effectiveInterval params last.nHeight = 0) :
    lookback params last pprev ≠ [] ↔
      ((last.nHeight : Int) ≤ params.nCoinFix ∨
        historyFactor params last.nHeight * effectiveInterval params last.nHeight
          ≤ last.nHeight) := by
  have hlen := linked_length pprev last hl
  have hF : historyFactor params last.nHeight = 2 ∨ historyFactor params last.nHeight = 4 := by
    unfold historyFactor; split_ifs <;> simp
  have hmult : last.nHeight + 1 = effectiveInterval params last.nHeight ∨
      2 * effectiveInterval params last.nHeight ≤ last.nHeight + 1 := by
    obtain ⟨k, hk⟩ := Nat.dvd_of_mod_eq_zero hb
    rcases k with _ | _ | k
    · omega
    · left; omega
    · right
      rw [hk]
      have : effectiveInterval params last.nHeight * (k + 1 + 1)
          = 2 * effectiveInterval params last.nHeight
            + effectiveInterval params last.nHeight * k := by ring
      omega
  unfold lookback
  rw [walkBack_ne_nil, retargetSettings_eq]
  simp only [List.length_cons, hlen, blocksToGoBack]
  generalize effectiveInterval params last.nHeight = I at *
  generalize last.nHeight = h at *
  rcases hF with hF | hF <;> rw [hF] <;> push_cast <;> split_ifs <;> omega

/-- C16: on a chain whose heights go down by 1 to a genesis block at height 0,
with an effective interval of at least 1 and the tip at an interval boundary,
the lookback of `GetNextWorkRequired_V1` ends on an entry of the chain, and
the `assert` of line 89 holds, exactly when the tip is at or below `nCoinFix`
or at or above the history factor times the interval; in particular it always
does when the tip is at or below `nCoinFix`. -/
theorem C16_lookback_found_iff (last : CBlockIndex) (pprev : List CBlockIndex)
    (pblock : Option CBlockHeader) (params : Params)
    (hl : linked (last :: pprev) = true)
    (hI : 1 ≤ effectiveInterval params last.nHeight)
    (hb : (last.nHeight + 1) % effectiveInterval params last.nHeight = 0) :
    (lookback params last pprev ≠ [] ↔
        ((last.nHeight : Int) ≤ params.nCoinFix ∨
          historyFactor params last.nHeight * effectiveInterval params last.nHeight
            ≤ last.nHeight)) ∧
      (GetNextWorkRequired_V1 (last :: pprev) pblock params ≠ .error .assertFailed ↔
        ((last.nHeight : Int) ≤ params.nCoinFix ∨
          historyFactor params last.nHeight * effectiveInterval params last.nHeight
            ≤ last.nHeight)) ∧
      ((last.nHeight : Int) ≤ params.nCoinFix → lookback params last pprev ≠ []) := by
  have hiff := lookback_found_iff params last pprev hl hI hb
  refine ⟨hiff, ?_, fun h => hiff.mpr (Or.inl h)⟩
  rw [← hiff, V1_unfold last pprev pblock params (by omega), if_neg (not_not.mpr hb)]
  cases hlk : lookback params last pprev with
  | nil => simp
  | cons first rest =>
    simp only [retarget]
    split_ifs <;> simp

/-- Witness of C16: the tip of `tenChain` under `deepParams`, at height 9 above
`nCoinFix = 0`, with an interval of 2 and a history factor of 4: the lookback
of 8 blocks ends on the entry at height 1. -/
theorem C16_lookback_found_iff_witness :
    lookback deepParams ⟨9, 6400, 0x1d00ffff⟩
        [⟨8, 5800, 0x1d00ffff⟩, ⟨7, 5200, 0x1d00ffff⟩, ⟨6, 4600, 0x1d00ffff⟩,
          ⟨5, 4000, 0x1d00ffff⟩, ⟨4, 3400, 0x1d00ffff⟩, ⟨3, 2800, 0x1d00ffff⟩,
          ⟨2, 2200, 0x1d00ffff⟩, ⟨1, 1600, 0x1d00ffff⟩, ⟨0, 1000, 0x1d00ffff⟩] ≠ [] ↔
      (((9 : Nat) : Int) ≤ deepParams.nCoinFix ∨
        historyFactor deepParams 9 * effectiveInterval deepParams 9 ≤ 9) :=
  (C16_lookback_found_iff ⟨9, 6400, 0x1d00ffff⟩
    [⟨8, 5800, 0x1d00ffff⟩, ⟨7, 5200, 0x1d00ffff⟩, ⟨6, 4600, 0x1d00ffff⟩,
      ⟨5, 4000, 0x1d00ffff⟩, ⟨4, 3400, 0x1d00ffff⟩, ⟨3, 2800, 0x1d00ffff⟩,
      ⟨2, 2200, 0x1d00ffff⟩, ⟨1, 1600, 0x1d00ffff⟩, ⟨0, 1000, 0x1d00ffff⟩]
    none deepParams (by decide) (by decide) (by decide)).1

/-! ## The result of `GetNextWorkRequired_V2` against its limit -/

theorem walk_actual_pos (params : Params) (horizon : Bool → Nat → Int → Int → Bool)
    (fTwoA : Bool) (lo hi : Nat) : ∀ (chain : List CBlockIndex) (i : Nat) (s : WalkState),
      1 ≤ s.PastRateActualSeconds →
      1 ≤ (walk params horizon fTwoA lo hi chain i s).PastRateActualSeconds := by
  intro chain
  induction chain with
  | nil => intro i s hs; simpa [walk] using hs
  | cons reading pprev ih =>
    intro i s hs
    have hstep : 1 ≤ (walkStep params reading i s).PastRateActualSeconds := by
      simp only [walkStep]
      split_ifs <;> omega
    rw [walk_cons]
    split_ifs <;> first | exact hs | exact hstep | exact ih _ _ hstep

/-- C18: every pass of the walk of `GetNextWorkRequired_V2` leaves an
`actualSeconds` of at least 1: it is 5 when the latest block time is less than
one second after the time of the entry, and the difference itself otherwise;
the value the final scaling uses is at least 1 as well. -/
theorem C18_actual_seconds_at_least_one (params : Params)
    (horizon : Bool → Nat → Int → Int → Bool) (fTwoA : Bool) (lo hi : Nat)
    (last reading : CBlockIndex) (pprev : List CBlockIndex) (i : Nat) (s : WalkState)
    (hh : 0 < last.nHeight) :
    1 ≤ (walkStep params reading i s).PastRateActualSeconds ∧
      (walkStep params reading i s).PastRateActualSeconds =
        (if max s.LatestBlockTime reading.nTime - reading.nTime < 1 then 5
          else max s.LatestBlockTime reading.nTime - reading.nTime) ∧
      1 ≤ (walk params horizon fTwoA lo hi (last :: pprev) 1
        (walkInit last)).PastRateActualSeconds := by
  have hstep : ∀ (r : CBlockIndex) (j : Nat) (t : WalkState),
      1 ≤ (walkStep params r j t).PastRateActualSeconds := by
    intro r j t
    simp only [walkStep]
    split_ifs <;> omega
  refine ⟨hstep _ _ _, ?_, ?_⟩
  · simp only [walkStep, max_def]
    split_ifs <;> omega
  · rw [walk_cons, if_pos hh, if_neg (by omega)]
    split_ifs
    · exact hstep _ _ _
    · exact walk_actual_pos params horizon fTwoA lo hi _ _ _ (hstep _ _ _)

/-- Witness of C18: the walk over `pacedChain` as `GetNextWorkRequired_V2` runs
it under `earlyShortParams`, whatever the test of line 183 answers. -/
theorem C18_actual_seconds_at_least_one_witness :
    0 < (⟨3, 1090, 0x1d00ffff⟩ : CBlockIndex).nHeight ∧
      ∀ horizon, 1 ≤ (walk earlyShortParams horizon false 3 840 pacedChain 1
        (walkInit ⟨3, 1090, 0x1d00ffff⟩)).PastRateActualSeconds :=
  ⟨by decide,
    fun horizon =>
      (C18_actual_seconds_at_least_one earlyShortParams horizon false 3 840
        ⟨3, 1090, 0x1d00ffff⟩ ⟨3, 1090, 0x1d00ffff⟩
        [⟨2, 1060, 0x1c7fff80⟩, ⟨1, 1030, 0x1d00ffff⟩, ⟨0, 1000, 0x1d00ffff⟩] 1
        (walkInit ⟨3, 1090, 0x1d00ffff⟩) (by decide)).2.2⟩

/-- Counterexample to C18 as stated: on `briskChain`, whose blocks are one
second apart, under `earlyShortParams` the walk makes three passes, the first
two without the test of line 183 and the third the last one whatever that test
answers. The third pass finds the latest block time two seconds after the time
of its entry; line 167 replaces only differences below 1, so `actualSeconds`
is 2, and 2 is what the test of line 183 and the final scaling use. -/
theorem C18_counterexample_two_seconds :
    (∀ horizon, GetNextWorkRequired_V2 horizon briskChain earlyShortParams =
        .ok (CBigNum.GetCompact (finalTarget
          (walk earlyShortParams horizon false 3 840 briskChain 1
            (walkInit ⟨3, 1003, 0x1d00ffff⟩))))) ∧
      (∀ horizon, GetNextWorkRequired_V2 horizon briskChain earlyShortParams = .ok 470134869) ∧
      ∀ horizon,
        (walk earlyShortParams horizon false 3 840 briskChain 1
          (walkInit ⟨3, 1003, 0x1d00ffff⟩)).PastRateActualSeconds = 2 ∧
        ¬ (5 : Int) ≤ (walk earlyShortParams horizon false 3 840 briskChain 1
          (walkInit ⟨3, 1003, 0x1d00ffff⟩)).PastRateActualSeconds := by
  have hw : ∀ horizon, walk earlyShortParams horizon false 3 840 briskChain 1
      (walkInit ⟨3, 1003, 0x1d00ffff⟩) = walk earlyShortParams neverStop false 3 840 briskChain 1
      (walkInit ⟨3, 1003, 0x1d00ffff⟩) :=
    fun horizon => walk_horizon_idle earlyShortParams horizon neverStop false 3 840
      briskChain 1 (walkInit ⟨3, 1003, 0x1d00ffff⟩) (by decide)
  have hv : ∀ horizon, GetNextWorkRequired_V2 horizon briskChain earlyShortParams
      = GetNextWorkRequired_V2 neverStop briskChain earlyShortParams :=
    fun horizon => V2_horizon_idle horizon neverStop ⟨3, 1003, 0x1d00ffff⟩
      [⟨2, 1002, 0x1d00ffff⟩, ⟨1, 1001, 0x1d00ffff⟩, ⟨0, 1000, 0x1d00ffff⟩]
      earlyShortParams (by decide)
  refine ⟨fun horizon => ?_, fun horizon => ?_, fun horizon => ?_⟩
  · rw [hv horizon, hw horizon]
    decide
  · rw [hv horizon]
    decide
  · rw [hw horizon]
    decide

/-! ## The running average of `GetNextWorkRequired_V2` -/

theorem walkStep_average (params : Params) (reading : CBlockIndex) (i : Nat) (s : WalkState) :
    (walkStep params reading i s).PastDifficultyAverage =
      averageStep i s.PastDifficultyAveragePrev (CBigNum.SetCompact reading.nBits) := rfl

theorem tmod_bounds (a b : Int) (hb : 0 < b) : -b < Int.tmod a b ∧ Int.tmod a b < b := by
  refine ⟨?_, Int.tmod_lt_of_pos a hb⟩
  rcases lt_or_le a 0 with ha | ha
  · have e : a = -(-a) := by omega
    have h1 := Int.tmod_lt_of_pos (-a) hb
    have h2 := Int.tmod_def (-a) b
    have h3 := Int.tmod_def a b
    have h4 : a.tdiv b = -((-a).tdiv b) := by
      rw [Int.neg_tdiv]; omega
    rw [h4] at h3
    have h5 : b * -((-a).tdiv b) = -(b * (-a).tdiv b) := by ring
    rw [h5] at h3
    omega
  · have := Int.tmod_nonneg b ha
    omega

theorem averageStep_deviation (k : Nat) (prev S d : Int)
    (h : 2 * |(k : Int) * prev - S| ≤ (k : Int) * ((k : Int) - 1)) :
    2 * |((k : Int) + 1) * averageStep (k + 1) prev d - (S + d)|
      ≤ ((k : Int) + 1) * (k : Int) := by
  unfold averageStep
  rcases Nat.eq_zero_or_pos k with hk | hk
  · subst hk
    simp only [Nat.cast_zero, zero_mul, zero_sub, abs_neg, mul_zero] at h
    have hS : S = 0 := by
      have := abs_nonneg S
      have h0 : |S| = 0 := by omega
      exact abs_eq_zero.mp h0
    subst hS
    simp
  · rw [if_neg (by omega)]
    have hb : (0 : Int) < ((k + 1 : Nat) : Int) := by exact_mod_cast Nat.succ_pos k
    obtain ⟨hr1, hr2⟩ := tmod_bounds (d - prev) ((k + 1 : Nat) : Int) hb
    have hdef := Int.tdiv_add_tmod (d - prev) ((k + 1 : Nat) : Int)
    generalize Int.tdiv (d - prev) ((k + 1 : Nat) : Int) = q at hdef ⊢
    generalize Int.tmod (d - prev) ((k + 1 : Nat) : Int) = r at hdef hr1 hr2
    push_cast at hdef hr1 hr2 ⊢
    have hkey : ((k : Int) + 1) * (q + prev) - (S + d) = ((k : Int) * prev - S) - r := by
      linear_combination hdef
    rw [hkey]
    have habs := abs_sub ((k : Int) * prev - S) r
    have hrabs : |r| ≤ (k : Int) := by
      rw [abs_le]; constructor <;> omega
    nlinarith [habs, hrabs, h]

theorem runningAverageFrom_deviation : ∀ (ds : List Int) (k : Nat) (prev S : Int),
    2 * |(k : Int) * prev - S| ≤ (k : Int) * ((k : Int) - 1) →
    2 * |((k + ds.length : Nat) : Int) * runningAverageFrom (k + 1) prev ds - (S + ds.sum)|
      ≤ ((k + ds.length : Nat) : Int) * (((k + ds.length : Nat) : Int) - 1) := by
  intro ds
  induction ds with
  | nil =>
    intro k prev S h
    simpa [runningAverageFrom] using h
  | cons d ds ih =>
    intro k prev S h
    have hstep := averageStep_deviation k prev S d h
    have := ih (k + 1) (averageStep (k + 1) prev d) (S + d) (by
      push_cast
      have e : ((k : Int) + 1) * ((k : Int) + 1 - 1) = ((k : Int) + 1) * (k : Int) := by ring
      rw [e]
      exact hstep)
    simp only [runningAverageFrom, List.length_cons, List.sum_cons]
    have e1 : k + (ds.length + 1) = k + 1 + ds.length := by omega
    have e2 : S + (d + ds.sum) = S + d + ds.sum := by ring
    rw [e1, e2]
    exact this

theorem runningAverage_deviation (ds : List Int) :
    2 * |(ds.length : Int) * runningAverage ds - ds.sum|
      ≤ (ds.length : Int) * ((ds.length : Int) - 1) := by
  have := runningAverageFrom_deviation ds 0 0 0 (by simp)
  simpa [runningAverage] using this

/-- C19: the running average of `GetNextWorkRequired_V2` over `n` decoded
targets stays within `n (n - 1) / 2` of their sum divided by `n`, each division
of line 156 dropping a remainder; so the final averages of a window and of a
permutation of it differ by at most `n - 1`. -/
theorem C19_average_of_permutation_close (ds ds' : List Int) (hperm : ds.Perm ds') :
    2 * |(ds.length : Int) * runningAverage ds - ds.sum|
        ≤ (ds.length : Int) * ((ds.length : Int) - 1) ∧
      |runningAverage ds - runningAverage ds'| ≤ ((ds.length - 1 : Nat) : Int) := by
  have h1 := runningAverage_deviation ds
  have h2 := runningAverage_deviation ds'
  rw [← hperm.length_eq, ← hperm.sum_eq] at h2
  refine ⟨h1, ?_⟩
  rcases Nat.eq_zero_or_pos ds.length with h0 | hpos
  · have hnil : ds = [] := List.length_eq_zero.mp h0
    have hnil' : ds' = [] := by
      subst hnil
      exact hperm.symm.eq_nil
    subst hnil
    subst hnil'
    simp
  · have hcast : ((ds.length - 1 : Nat) : Int) = (ds.length : Int) - 1 := by
      have : 1 ≤ ds.length := hpos
      push_cast [Nat.cast_sub this]
      ring
    rw [hcast]
    have hn : (0 : Int) < (ds.length : Int) := by exact_mod_cast hpos
    generalize (ds.length : Int) = n at *
    generalize runningAverage ds = a at *
    generalize runningAverage ds' = b at *
    generalize ds.sum = S at *
    have ha1 := le_abs_self (n * a - S)
    have ha2 := neg_abs_le (n * a - S)
    have hb1 := le_abs_self (n * b - S)
    have hb2 := neg_abs_le (n * b - S)
    rw [abs_le]
    constructor
    · by_contra hc
      push_neg at hc
      have hc2 : 0 ≤ b - a - n := by omega
      nlinarith [mul_nonneg hn.le hc2]
    · by_contra hc
      push_neg at hc
      have hc2 : 0 ≤ a - b - n := by omega
      nlinarith [mul_nonneg hn.le hc2]

/-- Witness of C19: the window `[1, 1, 4]` and its reversal. -/
theorem C19_average_of_permutation_close_witness :
    |runningAverage [1, 1, 4] - runningAverage [4, 1, 1]|
      ≤ (([1, 1, 4] : List Int).length - 1 : Nat) :=
  (C19_average_of_permutation_close [1, 1, 4] [4, 1, 1] (by decide)).2

/-- Counterexample to C19 as stated: the targets 1, 1, 4 average to 1, 1 and
`1 + (4 - 1) / 3 = 2` in this order, and to 4, `4 + (1 - 4) / 2 = 3` and
`3 + (1 - 3) / 3 = 3` in the reverse order, the divisions of line 156 dropping
their remainders; both values are decoded targets, of the bits `0x01010000` and
`0x01040000`. -/
theorem C19_counterexample_order_matters :
    List.Perm ([1, 1, 4] : List Int) [4, 1, 1] ∧
      CBigNum.SetCompact 0x01010000 = 1 ∧ CBigNum.SetCompact 0x01040000 = 4 ∧
      runningAverage [1, 1, 4] = 2 ∧ runningAverage [4, 1, 1] = 3 ∧
      runningAverage [1, 1, 4] ≠ runningAverage [4, 1, 1] := by
  decide

/-! ## The walk without cuts computes the running average -/

theorem walk_average (params : Params) (fTwoA : Bool) (lo : Nat) :
    ∀ (chain : List CBlockIndex) (i : Nat) (s : WalkState),
      (walk params neverStop fTwoA lo 0 chain i s).PastDifficultyAveragePrev =
        runningAverageFrom i s.PastDifficultyAveragePrev
          ((chain.takeWhile (fun e => decide (0 < e.nHeight))).map
            (fun e => CBigNum.SetCompact e.nBits)) := by
  intro chain
  induction chain with
  | nil => intro i s; simp [walk, runningAverageFrom]
  | cons e rest ih =>
    intro i s
    rw [walk_cons]
    by_cases hh : 0 < e.nHeight
    · rw [if_pos hh, if_neg (by omega), if_neg (by simp [neverStop]), ih]
      simp only [List.takeWhile_cons, hh, decide_True, List.map_cons, runningAverageFrom]
      rfl
    · rw [if_neg hh]
      simp [List.takeWhile_cons, hh, runningAverageFrom]

/-! ## The length of the walk of `GetNextWorkRequired_V2` -/

theorem walkStep_mass (params : Params) (reading : CBlockIndex) (i : Nat) (s : WalkState) :
    (walkStep params reading i s).PastBlocksMass = s.PastBlocksMass + 1 := rfl

theorem walk_mass_le_max (params : Params) (horizon : Bool → Nat → Int → Int → Bool)
    (fTwoA : Bool) (lo hi : Nat) (hhi : 0 < hi) :
    ∀ (chain : List CBlockIndex) (i : Nat) (s : WalkState),
      i = s.PastBlocksMass + 1 → s.PastBlocksMass ≤ hi →
      (walk params horizon fTwoA lo hi chain i s).PastBlocksMass ≤ hi := by
  intro chain
  induction chain with
  | nil => intro i s _ hs; simpa [walk] using hs
  | cons reading pprev ih =>
    intro i s hi1 hs
    rw [walk_cons]
    split_ifs with h1 h2 h3
    · exact hs
    · rw [walkStep_mass]
      have : ¬ i > hi := fun h => h2 ⟨hhi, h⟩
      omega
    · apply ih
      · rw [walkStep_mass]; omega
      · rw [walkStep_mass]
        have : ¬ i > hi := fun h => h2 ⟨hhi, h⟩
        omega
    · exact hs

theorem walk_mass_le_height (params : Params) (horizon : Bool → Nat → Int → Int → Bool)
    (fTwoA : Bool) (lo hi : Nat) :
    ∀ (rest : List CBlockIndex) (e : CBlockIndex) (i : Nat) (s : WalkState),
      linked (e :: rest) = true →
      (walk params horizon fTwoA lo hi (e :: rest) i s).PastBlocksMass
        ≤ s.PastBlocksMass + e.nHeight := by
  intro rest
  induction rest with
  | nil =>
    intro e i s hl
    simp only [linked, decide_eq_true_eq] at hl
    rw [walk_cons, if_neg (by omega)]
    omega
  | cons p rest ih =>
    intro e i s hl
    simp only [linked, Bool.and_eq_true, decide_eq_true_eq] at hl
    rw [walk_cons]
    split_ifs
    · omega
    · rw [walkStep_mass]; omega
    · have := ih p (i + 1) (walkStep params e i s) hl.2
      rw [walkStep_mass] at this
      omega
    · omega

/-- C20: on a chain whose heights go down by 1 to the genesis block and with a
positive spacing, `GetNextWorkRequired_V2` returns, either its constant or the
encoding of what its walk leaves; that walk processes at most as many entries
as the height of the tip, and at most `25200 / nPowTargetSpacing` entries when
that quotient is positive, whatever `horizon` decides at each pass. -/
theorem C20_walk_is_bounded (horizon : Bool → Nat → Int → Int → Bool)
    (fTwoA : Bool) (lo : Nat) (last : CBlockIndex) (pprev : List CBlockIndex) (params : Params)
    (hl : linked (last :: pprev) = true) (hs : 0 < params.nPowTargetSpacing) :
    (GetNextWorkRequired_V2 horizon (last :: pprev) params
          = .ok (CBigNum.GetCompact (CBigNum.SetCompact 504365055)) ∨
        GetNextWorkRequired_V2 horizon (last :: pprev) params
          = .ok (CBigNum.GetCompact (finalTarget
              (walk params horizon (decide ((last.nHeight : Int) + 1 ≥ params.nHardForkTwoA))
                ((if (last.nHeight : Int) + 1 ≥ params.nHardForkTwoA then 540 else 90)
                  / params.nPowTargetSpacing)
                (25200 / params.nPowTargetSpacing) (last :: pprev) 1 (walkInit last))))) ∧
      (walk params horizon fTwoA lo (25200 / params.nPowTargetSpacing) (last :: pprev) 1
        (walkInit last)).PastBlocksMass ≤ last.nHeight ∧
      (0 < 25200 / params.nPowTargetSpacing →
        (walk params horizon fTwoA lo (25200 / params.nPowTargetSpacing) (last :: pprev) 1
          (walkInit last)).PastBlocksMass ≤ 25200 / params.nPowTargetSpacing) := by
  have hs0 : params.nPowTargetSpacing ≠ 0 := by omega
  refine ⟨?_, ?_, ?_⟩
  · simp only [GetNextWorkRequired_V2, if_neg hs0]
    by_cases hA : (last.nHeight : Int) + 1 ≥ params.nHardForkTwoA
    · simp only [hA, decide_True, if_true]
      split_ifs
      · exact Or.inl rfl
      · exact Or.inr rfl
    · simp only [hA, decide_False, if_false, Bool.false_eq_true]
      split_ifs
      · exact Or.inl rfl
      · exact Or.inr rfl
  · have := walk_mass_le_height params horizon fTwoA lo (25200 / params.nPowTargetSpacing)
      pprev last 1 (walkInit last) hl
    simpa [walkInit] using this
  · intro hpos
    exact walk_mass_le_max params horizon fTwoA lo _ hpos _ 1 (walkInit last) rfl
      (Nat.zero_le _)

/-- Witness of C20: `tenChain` under the sample configuration with a spacing of
6300 seconds, where `25200 / 6300 = 4`: whatever the test of line 183 answers,
the walk processes at most 4 entries. -/
theorem C20_walk_is_bounded_witness :
    linked tenChain = true ∧
      0 < ({ earlyParams with nPowTargetSpacing := 6300 } : Params).nPowTargetSpacing ∧
      0 < 25200 / ({ earlyParams with nPowTargetSpacing := 6300 } : Params).nPowTargetSpacing ∧
      ∀ horizon,
        (walk { earlyParams with nPowTargetSpacing := 6300 } horizon false 0
          (25200 / ({ earlyParams with nPowTargetSpacing := 6300 } : Params).nPowTargetSpacing)
          tenChain 1 (walkInit ⟨9, 6400, 0x1d00ffff⟩)).PastBlocksMass
          ≤ 25200 / ({ earlyParams with nPowTargetSpacing := 6300 } : Params).nPowTargetSpacing :=
  ⟨by decide, by decide, by decide,
    fun horizon =>
      (C20_walk_is_bounded horizon false 0 ⟨9, 6400, 0x1d00ffff⟩
        [⟨8, 5800, 0x1d00ffff⟩, ⟨7, 5200, 0x1d00ffff⟩, ⟨6, 4600, 0x1d00ffff⟩,
          ⟨5, 4000, 0x1d00ffff⟩, ⟨4, 3400, 0x1d00ffff⟩, ⟨3, 2800, 0x1d00ffff⟩,
          ⟨2, 2200, 0x1d00ffff⟩, ⟨1, 1600, 0x1d00ffff⟩, ⟨0, 1000, 0x1d00ffff⟩]
        { earlyParams with nPowTargetSpacing := 6300 } (by decide) (by decide)).2.2
        (by decide)⟩

/-- Counterexample to C20 as stated: under `sparseParams` the spacing is
positive and `25200 / 30000` is 0; on `pairChain`, whose heights go down by 1
to the genesis block, the first pass of the loop processes the tip before any
test can stop the walk, the entry behind is the genesis block, and so the walk
processes 1 entry, more than 0, whatever the test of line 183 answers; the
bits returned are 453700648. -/
theorem C20_counterexample_no_maximum :
    linked pairChain = true ∧ 0 < sparseParams.nPowTargetSpacing ∧
      25200 / sparseParams.nPowTargetSpacing = 0 ∧
      (∀ horizon, GetNextWorkRequired_V2 horizon pairChain sparseParams =
        .ok (CBigNum.GetCompact (finalTarget
          (walk sparseParams horizon false 0 (25200 / sparseParams.nPowTargetSpacing)
            pairChain 1 (walkInit ⟨1, 1001, 0x1d00ffff⟩))))) ∧
      (∀ horizon, GetNextWorkRequired_V2 horizon pairChain sparseParams = .ok 453700648) ∧
      ∀ horizon,
        (walk sparseParams horizon false 0 (25200 / sparseParams.nPowTargetSpacing)
          pairChain 1 (walkInit ⟨1, 1001, 0x1d00ffff⟩)).PastBlocksMass = 1 ∧
        ¬ (walk sparseParams horizon false 0 (25200 / sparseParams.nPowTargetSpacing)
          pairChain 1 (walkInit ⟨1, 1001, 0x1d00ffff⟩)).PastBlocksMass
          ≤ 25200 / sparseParams.nPowTargetSpacing := by
  have hw : ∀ horizon, walk sparseParams horizon false 0
      (25200 / sparseParams.nPowTargetSpacing) pairChain 1 (walkInit ⟨1, 1001, 0x1d00ffff⟩)
      = walk sparseParams neverStop false 0 (25200 / sparseParams.nPowTargetSpacing) pairChain 1
        (walkInit ⟨1, 1001, 0x1d00ffff⟩) :=
    fun horizon => walk_horizon_idle sparseParams horizon neverStop false 0
      (25200 / sparseParams.nPowTargetSpacing) pairChain 1 (walkInit ⟨1, 1001, 0x1d00ffff⟩)
      (by decide)
  have hv : ∀ horizon, GetNextWorkRequired_V2 horizon pairChain sparseParams
      = GetNextWorkRequired_V2 neverStop pairChain sparseParams :=
    fun horizon => V2_horizon_idle horizon neverStop ⟨1, 1001, 0x1d00ffff⟩
      [⟨0, 1000, 0x1d00ffff⟩] sparseParams (by decide)
  refine ⟨by decide, by decide, by decide, fun horizon => ?_, fun horizon => ?_,
    fun horizon => ?_⟩
  · rw [hv horizon, hw horizon]
    decide
  · rw [hv horizon]
    decide
  · rw [hw horizon]
    decide

end UFO
